import Mathlib

/-!
Verification development for the upsilon_py transport core
(src/upsilon_py/__init__.py).

The Python `NumWorks` class is shallowly embedded as a pure state machine:
  * JSON values are the inductive type `Json` (numbers are modelled as
    integers, which covers every value exchanged by the protocol);
  * the session state (`NW`) carries the readiness event, the decoded
    message queue, the logging toggle and a trace of writer actions;
  * each `async` method becomes a state transformer returning an
    `Outcome`, where `Outcome.blocked` models a coroutine suspended
    forever (an `await` that can never resume), `Outcome.raised` models a
    propagating Python exception, and `Outcome.ok` a normal return;
  * the background loops (`_read`, `_wait_for_ready`, `_redirect_stderr`)
    become recursive functions over the finite trace of lines or queue
    values they consume.
-/

/-- JSON values as decoded by `json.loads` in the client.  Numbers are
modelled as integers; objects are association lists with distinct keys
(the shape `json.loads` produces). -/
inductive Json where
  | null
  | bool (bv : Bool)
  | num (iv : Int)
  | str (sv : String)
  | arr (items : List Json)
  | obj (fields : List (String × Json))

/-- First binding of a key in an object field list (Python dicts have
unique keys, so first lookup equals dict lookup). -/
def lookupField : List (String × Json) → String → Option Json
  | [], _ => none
  | (k, v) :: rest, key => if k = key then some v else lookupField rest key

/-- Python truthiness (`bool(x)`) of a JSON value: `None`, `False`, `0`,
empty string, empty list and empty dict are falsy, everything else is
truthy. -/
def Json.truthy : Json → Bool
  | .null => false
  | .bool b => b
  | .num n => n != 0
  | .str s => s != ""
  | .arr elems => !elems.isEmpty
  | .obj fields => !fields.isEmpty

/-- Python exceptions that the modelled code can raise. -/
inductive PyErr where
  | javaScriptError (payload : Json)
  | keyError (key : String)
  | typeError
  | attributeError

/-- Python subscript `value[key]`: a `KeyError` on a dict missing the
key, a `TypeError` on a non-dict. -/
def Json.getItem : Json → String → Except PyErr Json
  | .obj fields, key =>
    match lookupField fields key with
    | some v => .ok v
    | none => .error (.keyError key)
  | _, _ => .error .typeError

/-- Python `value.get(key, default)`: only dicts have a `.get` method, so
any other value raises `AttributeError`. -/
def Json.dictGet : Json → String → Json → Except PyErr Json
  | .obj fields, key, dflt =>
    match lookupField fields key with
    | some v => .ok v
    | none => .ok dflt
  | _, _, _ => .error .attributeError

/-- The error signal recognised by `_get_result`: the dequeued value is a
dict whose `error` entry is truthy (`isinstance(result, dict) and
result.get("error", False)`); the signal carries `result["error"]`. -/
def errorSignal : Json → Option Json
  | .obj fields =>
    match lookupField fields "error" with
    | some v => if v.truthy then some v else none
    | none => none
  | _ => none

/-- Actions the client performs on the child process, recorded as a
trace: writing one framed message (serialize + newline + drain),
half-closing the writer, closing the writer, clearing or setting the
readiness event, and awaiting child exit (present in the model so that
its absence from every trace is provable; the corresponding
`await self.proc.wait()` line is commented out in `stop`). -/
inductive NWAction where
  | wrote (msg : Json)
  | sentEof
  | closedWriter
  | clearedReady
  | setReady
  | waitedChild

/-- Session state of a `NumWorks` object: the readiness event `ready`
(`asyncio.Event`), the module-level `logger.disabled` flag, the FIFO
queue of decoded values (`self._queue`), and the trace of performed
actions. -/
structure NW where
  ready : Bool
  loggerDisabled : Bool
  queue : List Json
  trace : List NWAction

/-- Result of running one `async` method to completion: `blocked` is a
suspension that can never resume (e.g. dequeue on an empty queue with no
producer, or waiting on an unset event), `raised` a propagating
exception together with the state at that point, `ok` a normal return. -/
inductive Outcome (α : Type) where
  | blocked
  | raised (e : PyErr) (s : NW)
  | ok (a : α) (s : NW)

/-- `await self._queue.put(data)` by the producer. -/
def enqueue (v : Json) (s : NW) : NW :=
  { s with queue := s.queue ++ [v] }

/-- `_write(data)`: dump to JSON, write the bytes and a newline, drain.
Recorded as a single `NWAction.wrote` trace entry; the byte-level framing
is modelled separately by `dumps` below. -/
def write (msg : Json) (s : NW) : NW :=
  { s with trace := s.trace ++ [.wrote msg] }

/-- `_get_result`: dequeue one value; if it is a dict with a truthy
`error` entry raise `JavaScriptError(result["error"])`, otherwise return
the value unchanged. -/
def getResult (s : NW) : Outcome Json :=
  match s.queue with
  | [] => .blocked
  | v :: rest =>
    let s1 : NW := { s with queue := rest }
    match errorSignal v with
    | some e => .raised (.javaScriptError e) s1
    | none => .ok v s1

/-- `ensure_ready`: `await self.ready.wait()` returns at once when the
event is set and suspends forever otherwise (no producer is modelled
inside a single call). -/
def ensure_ready (s : NW) : Outcome Unit :=
  if s.ready then .ok () s else .blocked

/-- Request envelope with no arguments. -/
def mkCmd (method : String) : Json :=
  .obj [("method", .str method)]

/-- Request envelope with an `args` list. -/
def mkCmdArgs (method : String) (args : List Json) : Json :=
  .obj [("method", .str method), ("args", .arr args)]

/-- Shared tail of every RPC method: write the envelope, then
`_get_result`. -/
def rpcCall (cmd : Json) (s : NW) : Outcome Json :=
  getResult (write cmd s)

/-- `connect`: wait for readiness, send the `connect` envelope, await one
result. -/
def connect (s : NW) : Outcome Json :=
  match ensure_ready s with
  | .blocked => .blocked
  | .raised e s1 => .raised e s1
  | .ok _ s1 => rpcCall (mkCmd "connect") s1

/-- `disconnect`: wait for readiness, send the `disconnect` envelope,
await one result. -/
def disconnect (s : NW) : Outcome Json :=
  match ensure_ready s with
  | .blocked => .blocked
  | .raised e s1 => .raised e s1
  | .ok _ s1 => rpcCall (mkCmd "disconnect") s1

/-- `status`: wait for readiness, send the `status` envelope, await one
result. -/
def status (s : NW) : Outcome Json :=
  match ensure_ready s with
  | .blocked => .blocked
  | .raised e s1 => .raised e s1
  | .ok _ s1 => rpcCall (mkCmd "status") s1

/-- `ensure_connected`: wait for readiness; silence the logger; call
`status`; restore the logger; subscript the response at `"status"`; when
that value is falsy, call `connect` and discard its result.  The logger
flag is restored only on the normal path, as in the source (no
try/finally). -/
def ensure_connected (s : NW) : Outcome Unit :=
  match ensure_ready s with
  | .blocked => .blocked
  | .raised e s1 => .raised e s1
  | .ok _ s1 =>
    match status { s1 with loggerDisabled := true } with
    | .blocked => .blocked
    | .raised e s2 => .raised e s2
    | .ok st s2 =>
      let s3 : NW := { s2 with loggerDisabled := false }
      match st.getItem "status" with
      | .error e => .raised e s3
      | .ok v =>
        if v.truthy then .ok () s3
        else
          match connect s3 with
          | .blocked => .blocked
          | .raised e s4 => .raised e s4
          | .ok _ s4 => .ok () s4

/-- `get_model`: ensure connected, send the `getModel` envelope, await
one result. -/
def get_model (s : NW) : Outcome Json :=
  match ensure_connected s with
  | .blocked => .blocked
  | .raised e s1 => .raised e s1
  | .ok _ s1 => rpcCall (mkCmd "getModel") s1

/-- `get_platform_info`: ensure connected, send the `getPlatformInfo`
envelope, await one result. -/
def get_platform_info (s : NW) : Outcome Json :=
  match ensure_connected s with
  | .blocked => .blocked
  | .raised e s1 => .raised e s1
  | .ok _ s1 => rpcCall (mkCmd "getPlatformInfo") s1

/-- `backup_storage`: ensure connected, send the `backupStorage`
envelope, await one result. -/
def backup_storage (s : NW) : Outcome Json :=
  match ensure_connected s with
  | .blocked => .blocked
  | .raised e s1 => .raised e s1
  | .ok _ s1 => rpcCall (mkCmd "backupStorage") s1

/-- `install_storage(storage)`: ensure connected, send the
`installStorage` envelope carrying the storage as single argument, await
one result. -/
def install_storage (storage : Json) (s : NW) : Outcome Json :=
  match ensure_connected s with
  | .blocked => .blocked
  | .raised e s1 => .raised e s1
  | .ok _ s1 => rpcCall (mkCmdArgs "installStorage" [storage]) s1

/-- `stop`: `disconnect` (errors propagate), `write_eof`, `close`, then
clear the readiness event.  The `await self.proc.wait()` line is
commented out in the source, so no `NWAction.waitedChild` is recorded. -/
def stop (s : NW) : Outcome Unit :=
  match disconnect s with
  | .blocked => .blocked
  | .raised e s1 => .raised e s1
  | .ok _ s1 =>
    .ok () { s1 with
      trace := s1.trace ++ [.sentEof, .closedWriter, .clearedReady],
      ready := false }

/-- Result of the `_wait_for_ready` background task on a given sequence
of queued values: it sets the event and stops consuming (`setsReady`,
carrying the values it leaves in the queue), dies on an unhandled
exception (`dies`), or exhausts the queue without a trigger and stays
suspended (`starves`). -/
inductive WatcherResult where
  | setsReady (rest : List Json)
  | dies (e : PyErr)
  | starves

/-- `_wait_for_ready`: repeatedly dequeue; on `data.get("ready", False)`
truthy, set the event and break.  `.get` on a non-dict raises
`AttributeError`, which is unhandled and kills the task. -/
def waitForReady : List Json → WatcherResult
  | [] => .starves
  | v :: rest =>
    match v.dictGet "ready" (.bool false) with
    | .error e => .dies e
    | .ok r => if r.truthy then .setsReady rest else waitForReady rest

/-- A queued value the watcher consumes and skips: a dict whose `ready`
entry (defaulting to `False`) is falsy. -/
def passesReady (v : Json) : Bool :=
  match v.dictGet "ready" (.bool false) with
  | .ok r => !r.truthy
  | .error _ => false

/-- A queued value that triggers the readiness event: a dict with a
truthy `ready` entry. -/
def triggersReady (v : Json) : Bool :=
  match v.dictGet "ready" (.bool false) with
  | .ok r => r.truthy
  | .error _ => false

/-- `isinstance(v, dict)`. -/
def Json.isObj : Json → Bool
  | .obj _ => true
  | _ => false

/-- One-outstanding-request discipline: for each `(cmd, resp)` pair the
caller writes `cmd`, the child enqueues `resp`, and the caller consumes
it through `_get_result` before the next write (the usage pattern of the
RPC methods, cf. `_write` and `_get_result`). -/
def runCalls : List (Json × Json) → NW → Outcome (List Json)
  | [], s => .ok [] s
  | (cmd, resp) :: rest, s =>
    match getResult (enqueue resp (write cmd s)) with
    | .blocked => .blocked
    | .raised e s1 => .raised e s1
    | .ok v s1 =>
      match runCalls rest s1 with
      | .blocked => .blocked
      | .raised e s2 => .raised e s2
      | .ok vs s2 => .ok (v :: vs) s2

/-- Whitespace for Python `str.strip()`: space, tab, newline, carriage
return, vertical tab, form feed. -/
def isPyWs (c : Char) : Bool :=
  c = ' ' || c = Char.ofNat 9 || c = Char.ofNat 10 || c = Char.ofNat 13 ||
  c = Char.ofNat 11 || c = Char.ofNat 12

/-- Python `str.strip()` on a list of characters. -/
def pyStrip (l : List Char) : List Char :=
  ((l.dropWhile isPyWs).reverse.dropWhile isPyWs).reverse

/-- `readline()` on an asyncio stream, modelled on a finite list of
remaining lines: at end of stream it returns empty bytes immediately (it
does not raise). -/
def readlineEof : List (List Char) → List Char × List (List Char)
  | [] => ([], [])
  | l :: ls => (l, ls)

/-- `_redirect_stderr`: while True, readline, decode and strip, skip
empty data, else log it; the body has no break or return.  The fuel
argument counts loop iterations: `some logged` would mean the loop
returned within that many iterations, `none` that it is still
running. -/
def stderrLoop : Nat → List (List Char) → List (List Char) →
    Option (List (List Char))
  | 0, _, _ => none
  | fuel + 1, stream, logged =>
    let r := readlineEof stream
    let data := pyStrip r.1
    if data.isEmpty then stderrLoop fuel r.2 logged
    else stderrLoop fuel r.2 (logged ++ [data])

/-- The stderr sink eventually exits when its stream is closed (what C6
asserts of the code). -/
def stderrTerminatesOnEof : Prop :=
  ∃ fuel logged, stderrLoop fuel [] [] = some logged

/-- Opening brace character. -/
def obrace : Char := '\x7b'

/-- Closing brace character. -/
def cbrace : Char := '\x7d'

/-- Decimal digit character for a value below ten. -/
def decChar : Nat → Char
  | 0 => '0'
  | 1 => '1'
  | 2 => '2'
  | 3 => '3'
  | 4 => '4'
  | 5 => '5'
  | 6 => '6'
  | 7 => '7'
  | 8 => '8'
  | _ => '9'

/-- Decimal digit test. -/
def isDigitChar (c : Char) : Bool := 48 ≤ c.toNat && c.toNat ≤ 57

/-- Value of a decimal digit character. -/
def digitVal (c : Char) : Nat := c.toNat - 48

/-- Decimal rendering of a natural number, accumulator form. -/
def natToCharsAux (n : Nat) (out : List Char) : List Char :=
  if n < 10 then decChar n :: out
  else natToCharsAux (n / 10) (decChar (n % 10) :: out)
termination_by n
decreasing_by apply Nat.div_lt_self <;> omega

/-- Decimal rendering of a natural number. -/
def natToChars (n : Nat) : List Char := natToCharsAux n []

/-- Decimal rendering of an integer, as `json.dumps` prints it. -/
def intToChars (i : Int) : List Char :=
  if i < 0 then '-' :: natToChars i.natAbs else natToChars i.toNat

/-- Modelled from the spec: the string escaping of `json.dumps` (the
serializer of `_write` is the Python standard library, not repository
code).  The double quote, the backslash and the common control
characters (newline included) are written with two-character escapes, so
the serialized form has no embedded newline; the `\uXXXX` form that
`ensure_ascii` uses for remaining control and non-ASCII characters is
not modelled (those characters are not the newline, so framing is
unaffected). -/
def escapeChar (c : Char) : List Char :=
  if c = '"' then ['\\', '"']
  else if c = '\\' then ['\\', '\\']
  else if c = Char.ofNat 10 then ['\\', 'n']
  else if c = Char.ofNat 9 then ['\\', 't']
  else if c = Char.ofNat 13 then ['\\', 'r']
  else if c = Char.ofNat 8 then ['\\', 'b']
  else if c = Char.ofNat 12 then ['\\', 'f']
  else [c]

/-- Escape every character of a string body. -/
def escapeString : List Char → List Char
  | [] => []
  | c :: cs => escapeChar c ++ escapeString cs

mutual

/-- Modelled from the spec: `json.dumps` with its default separators
(", " between items, ": " after keys), producing canonical JSON on a
single line. -/
def dumps : Json → List Char
  | Json.num i => intToChars i
  | Json.null => ['n', 'u', 'l', 'l']
  | Json.bool true => ['t', 'r', 'u', 'e']
  | Json.bool false => ['f', 'a', 'l', 's', 'e']
  | Json.str s => '"' :: (escapeString s.data ++ ['"'])
  | Json.arr [] => ['[', ']']
  | Json.arr (v :: vs) => '[' :: (dumps v ++ arrTail vs)
  | Json.obj [] => [obrace, cbrace]
  | Json.obj (f :: fs) => obrace :: (dumpField f ++ fieldsTail fs)

/-- Remaining array items, each preceded by ", ", then the closing
bracket. -/
def arrTail : List Json → List Char
  | [] => [']']
  | v :: vs => ',' :: ' ' :: (dumps v ++ arrTail vs)

/-- One `"key": value` member. -/
def dumpField : String × Json → List Char
  | (k, v) => '"' :: (escapeString k.data ++ '"' :: ':' :: ' ' :: dumps v)

/-- Remaining object members, each preceded by ", ", then the closing
brace. -/
def fieldsTail : List (String × Json) → List Char
  | [] => [cbrace]
  | f :: fs => ',' :: ' ' :: (dumpField f ++ fieldsTail fs)

end

/-- JSON whitespace accepted between tokens. -/
def isWsChar (c : Char) : Bool :=
  c = ' ' || c = Char.ofNat 9 || c = Char.ofNat 10 || c = Char.ofNat 13

/-- Skip leading JSON whitespace. -/
def skipWs (l : List Char) : List Char := l.dropWhile isWsChar

/-- Two-character string escapes accepted by the decoder. -/
def unescapeChar (c : Char) : Option Char :=
  if c = '"' then some '"'
  else if c = '\\' then some '\\'
  else if c = '/' then some '/'
  else if c = 'n' then some (Char.ofNat 10)
  else if c = 't' then some (Char.ofNat 9)
  else if c = 'r' then some (Char.ofNat 13)
  else if c = 'b' then some (Char.ofNat 8)
  else if c = 'f' then some (Char.ofNat 12)
  else none

/-- Body of a JSON string after the opening quote: characters up to the
unescaped closing quote, decoding two-character escapes (the `\uXXXX`
form is not modelled, cf. `escapeChar`).  Returns the decoded characters
and the remaining input. -/
def parseStringBody : List Char → Option (List Char × List Char)
  | [] => none
  | c :: rest =>
    if c = '"' then some ([], rest)
    else if c = '\\' then
      match rest with
      | [] => none
      | e :: r2 =>
        match unescapeChar e with
        | some d =>
          match parseStringBody r2 with
          | some (s, r3) => some (d :: s, r3)
          | none => none
        | none => none
    else
      match parseStringBody rest with
      | some (s, r3) => some (c :: s, r3)
      | none => none

/-- Match a literal character sequence, returning the rest of the
input. -/
def dropLit : List Char → List Char → Option (List Char)
  | [], input => some input
  | c :: cs, input =>
    match input with
    | [] => none
    | d :: ds => if d = c then dropLit cs ds else none

/-- Decimal value of a digit run, accumulator form. -/
def digitsValAux (acc : Nat) : List Char → Nat
  | [] => acc
  | c :: cs => digitsValAux (acc * 10 + digitVal c) cs

/-- Parse the digit run of a number (after an optional minus sign
already consumed when `neg` is set). -/
def parseNumTail (neg : Bool) (l : List Char) : Option (Json × List Char) :=
  let ds := l.takeWhile isDigitChar
  if ds.isEmpty then none
  else
    let n : Nat := digitsValAux 0 ds
    some (.num (if neg then -(n : Int) else (n : Int)), l.dropWhile isDigitChar)

mutual

/-- Modelled from the spec: the JSON value grammar of `json.loads` (the
decoder of `_read` is the Python standard library, not repository code),
as a fuelled recursive-descent parser returning the value and the
remaining input.  Fraction and exponent number forms and the `\uXXXX`
string escape are not modelled; whitespace between tokens is
accepted. -/
def parseVal : Nat → List Char → Option (Json × List Char)
  | 0, _ => none
  | _ + 1, [] => none
  | fuel + 1, c :: rest =>
    if c = 'n' then
      match dropLit ['u', 'l', 'l'] rest with
      | some r => some (.null, r)
      | none => none
    else if c = 't' then
      match dropLit ['r', 'u', 'e'] rest with
      | some r => some (.bool true, r)
      | none => none
    else if c = 'f' then
      match dropLit ['a', 'l', 's', 'e'] rest with
      | some r => some (.bool false, r)
      | none => none
    else if c = '"' then
      match parseStringBody rest with
      | some (s, r) => some (.str (String.mk s), r)
      | none => none
    else if c = '[' then
      match skipWs rest with
      | [] => none
      | d :: ds =>
        if d = ']' then some (.arr [], ds)
        else
          match parseElems fuel (d :: ds) with
          | some (vs, r) => some (.arr vs, r)
          | none => none
    else if c = obrace then
      match skipWs rest with
      | [] => none
      | d :: ds =>
        if d = cbrace then some (.obj [], ds)
        else
          match parseFields fuel (d :: ds) with
          | some (fs, r) => some (.obj fs, r)
          | none => none
    else if c = '-' then parseNumTail true rest
    else if isDigitChar c then parseNumTail false (c :: rest)
    else none

/-- Items of a nonempty array, up to and including the closing
bracket. -/
def parseElems : Nat → List Char → Option (List Json × List Char)
  | 0, _ => none
  | fuel + 1, input =>
    match parseVal fuel input with
    | none => none
    | some (v, r) =>
      match skipWs r with
      | [] => none
      | d :: ds =>
        if d = ']' then some ([v], ds)
        else if d = ',' then
          match parseElems fuel (skipWs ds) with
          | some (vs, r2) => some (v :: vs, r2)
          | none => none
        else none

/-- Members of a nonempty object, up to and including the closing
brace. -/
def parseFields : Nat → List Char → Option (List (String × Json) × List Char)
  | 0, _ => none
  | fuel + 1, input =>
    match input with
    | [] => none
    | c :: rest =>
      if c = '"' then
        match parseStringBody rest with
        | none => none
        | some (k, r1) =>
          match skipWs r1 with
          | [] => none
          | d :: ds =>
            if d = ':' then
              match parseVal fuel (skipWs ds) with
              | none => none
              | some (v, r2) =>
                match skipWs r2 with
                | [] => none
                | e :: es =>
                  if e = cbrace then some ([(String.mk k, v)], es)
                  else if e = ',' then
                    match parseFields fuel (skipWs es) with
                    | some (fs, r3) => some ((String.mk k, v) :: fs, r3)
                    | none => none
                  else none
            else none
      else none

end

/-- `json.loads`: parse one value surrounded by optional whitespace,
requiring the whole input to be consumed. -/
def loads (input : List Char) : Option Json :=
  match parseVal (input.length + 1) (skipWs input) with
  | some (v, rest) => if skipWs rest = [] then some v else none
  | none => none

/-- One iteration of the body of `_read` on a received line: decode and
strip, then `json.loads`; `none` models the caught `JSONDecodeError`
(the line is logged and dropped). -/
def decodeLine (line : List Char) : Option Json := loads (pyStrip line)

/-- The values `_read` enqueues for a finite sequence of received lines,
in receipt order. -/
def readLoop : List (List Char) → List Json
  | [] => []
  | line :: rest =>
    match decodeLine line with
    | none => readLoop rest
    | some v => v :: readLoop rest

/-- The bytes `_write` emits for one message: the serialized value
followed by a single newline. -/
def writeFramed (v : Json) : List Char := dumps v ++ [Char.ofNat 10]

mutual

/-- Structural size of a JSON value, used to bound the parser fuel. -/
def jsize : Json → Nat
  | Json.arr es => 1 + jsizeList es
  | Json.obj fs => 1 + jsizeFields fs
  | Json.null => 1
  | Json.bool _ => 1
  | Json.num _ => 1
  | Json.str _ => 1

/-- Structural size of array items. -/
def jsizeList : List Json → Nat
  | [] => 0
  | v :: vs => 1 + jsize v + jsizeList vs

/-- Structural size of object members. -/
def jsizeFields : List (String × Json) → Nat
  | [] => 0
  | f :: fs => 1 + jsize f.2 + jsizeFields fs

end

/-- True when the input does not begin with a decimal digit (the context
in which a serialized number is never merged with what follows). -/
def headNotDigit (l : List Char) : Bool :=
  match l with
  | c :: _ => !isDigitChar c
  | [] => true

/-- The resulting session state of an outcome still has the readiness
event set (vacuous for a forever-suspended call, which has no resulting
state). -/
def Outcome.keepsReady {α : Type} : Outcome α → Prop
  | .blocked => True
  | .raised _ s => s.ready = true
  | .ok _ s => s.ready = true

/-- An operation never clears a set readiness event. -/
def neverClearsReady {α : Type} (call : NW → Outcome α) : Prop :=
  ∀ s, s.ready = true → (call s).keepsReady

/-- Response handling of a readiness-gated RPC method: on a ready
session whose next queued value is the response, the call raises
`JavaScriptError` with the `error` entry when that entry is truthy, and
otherwise returns the dequeued value unchanged; in both cases the
resulting state differs from the initial one only by the consumed
response and the written request envelope (in particular the readiness
event is untouched). -/
def simpleCallSpec (call : NW → Outcome Json) (method : String) : Prop :=
  ∀ s v rest, s.ready = true → s.queue = v :: rest →
    call s =
      match errorSignal v with
      | some e => Outcome.raised (.javaScriptError e)
          { s with queue := rest, trace := s.trace ++ [.wrote (mkCmd method)] }
      | none => Outcome.ok v
          { s with queue := rest, trace := s.trace ++ [.wrote (mkCmd method)] }

/-- Response handling of a connection-gated RPC method: same as
`simpleCallSpec`, with the session already connected (the preceding
`ensure_connected` consumes one status response reporting a connected
device and issues no `connect`). -/
def connectedCallSpec (call : NW → Outcome Json) (cmd : Json) : Prop :=
  ∀ s v rest, s.ready = true →
    s.queue = Json.obj [("status", Json.bool true)] :: v :: rest →
    call s =
      match errorSignal v with
      | some e => Outcome.raised (.javaScriptError e)
          { s with queue := rest, loggerDisabled := false,
                   trace := s.trace ++ [.wrote (mkCmd "status"), .wrote cmd] }
      | none => Outcome.ok v
          { s with queue := rest, loggerDisabled := false,
                   trace := s.trace ++ [.wrote (mkCmd "status"), .wrote cmd] }

/-! Helper lemmas about the session operations. -/

theorem getResult_ok (s : NW) (v : Json) (rest : List Json)
    (hq : s.queue = v :: rest) (he : errorSignal v = none) :
    getResult s = .ok v { s with queue := rest } := by
  simp [getResult, hq, he]

theorem getResult_err (s : NW) (v e : Json) (rest : List Json)
    (hq : s.queue = v :: rest) (he : errorSignal v = some e) :
    getResult s = .raised (.javaScriptError e) { s with queue := rest } := by
  simp [getResult, hq, he]

theorem rpcCall_ok (cmd : Json) (s : NW) (v : Json) (rest : List Json)
    (hq : s.queue = v :: rest) (he : errorSignal v = none) :
    rpcCall cmd s =
      .ok v { s with queue := rest, trace := s.trace ++ [.wrote cmd] } := by
  simp [rpcCall, write, getResult, hq, he]

theorem rpcCall_err (cmd : Json) (s : NW) (v e : Json) (rest : List Json)
    (hq : s.queue = v :: rest) (he : errorSignal v = some e) :
    rpcCall cmd s = .raised (.javaScriptError e)
      { s with queue := rest, trace := s.trace ++ [.wrote cmd] } := by
  simp [rpcCall, write, getResult, hq, he]

theorem connect_eq_rpc (s : NW) (hr : s.ready = true) :
    connect s = rpcCall (mkCmd "connect") s := by
  simp [connect, ensure_ready, hr]

theorem disconnect_eq_rpc (s : NW) (hr : s.ready = true) :
    disconnect s = rpcCall (mkCmd "disconnect") s := by
  simp [disconnect, ensure_ready, hr]

theorem status_eq_rpc (s : NW) (hr : s.ready = true) :
    status s = rpcCall (mkCmd "status") s := by
  simp [status, ensure_ready, hr]

theorem ensure_connected_connected (s : NW) (fields : List (String × Json))
    (stv : Json) (rest : List Json)
    (hr : s.ready = true) (hq : s.queue = Json.obj fields :: rest)
    (he : lookupField fields "error" = none)
    (hst : lookupField fields "status" = some stv) (htv : stv.truthy = true) :
    ensure_connected s = .ok ()
      { s with queue := rest, loggerDisabled := false,
               trace := s.trace ++ [.wrote (mkCmd "status")] } := by
  have h1 : status { s with loggerDisabled := true } =
      .ok (Json.obj fields)
        { s with loggerDisabled := true, queue := rest,
                 trace := s.trace ++ [.wrote (mkCmd "status")] } := by
    rw [status_eq_rpc _ (by simpa using hr)]
    rw [rpcCall_ok _ _ _ rest (by simpa using hq) (by simp [errorSignal, he])]
  simp only [hr] at h1
  simp [ensure_connected, ensure_ready, hr, h1, Json.getItem, hst, htv]

theorem ensure_connected_reconnect (s : NW) (fields : List (String × Json))
    (stv cv : Json) (rest : List Json)
    (hr : s.ready = true) (hq : s.queue = Json.obj fields :: cv :: rest)
    (he : lookupField fields "error" = none)
    (hst : lookupField fields "status" = some stv) (htv : stv.truthy = false)
    (hce : errorSignal cv = none) :
    ensure_connected s = .ok ()
      { s with queue := rest, loggerDisabled := false,
               trace := s.trace ++
                 [.wrote (mkCmd "status"), .wrote (mkCmd "connect")] } := by
  have h1 : status { s with loggerDisabled := true } =
      .ok (Json.obj fields)
        { s with loggerDisabled := true, queue := cv :: rest,
                 trace := s.trace ++ [.wrote (mkCmd "status")] } := by
    rw [status_eq_rpc _ (by simpa using hr)]
    rw [rpcCall_ok _ _ _ (cv :: rest) (by simpa using hq)
      (by simp [errorSignal, he])]
  have h2 : connect { s with loggerDisabled := false, queue := cv :: rest,
                             trace := s.trace ++ [.wrote (mkCmd "status")] } =
      .ok cv { s with loggerDisabled := false, queue := rest,
                      trace := (s.trace ++ [.wrote (mkCmd "status")]) ++
                        [.wrote (mkCmd "connect")] } := by
    rw [connect_eq_rpc _ (by simpa using hr)]
    rw [rpcCall_ok _ _ _ rest (by simp) hce]
  simp only [hr] at h1 h2
  simp [ensure_connected, ensure_ready, hr, h1, Json.getItem, hst, htv, h2]

theorem ensure_connected_status_raise (s : NW) (v e : Json) (rest : List Json)
    (hr : s.ready = true) (hq : s.queue = v :: rest)
    (he : errorSignal v = some e) :
    ensure_connected s = .raised (.javaScriptError e)
      { s with queue := rest, loggerDisabled := true,
               trace := s.trace ++ [.wrote (mkCmd "status")] } := by
  have h1 : status { s with loggerDisabled := true } =
      .raised (.javaScriptError e)
        { s with loggerDisabled := true, queue := rest,
                 trace := s.trace ++ [.wrote (mkCmd "status")] } := by
    rw [status_eq_rpc _ (by simpa using hr)]
    rw [rpcCall_err _ _ _ _ rest (by simpa using hq) he]
  simp only [hr] at h1
  simp [ensure_connected, ensure_ready, hr, h1]

theorem ensure_connected_connect_raise (s : NW) (fields : List (String × Json))
    (stv cv e : Json) (rest : List Json)
    (hr : s.ready = true) (hq : s.queue = Json.obj fields :: cv :: rest)
    (he : lookupField fields "error" = none)
    (hst : lookupField fields "status" = some stv) (htv : stv.truthy = false)
    (hce : errorSignal cv = some e) :
    ensure_connected s = .raised (.javaScriptError e)
      { s with queue := rest, loggerDisabled := false,
               trace := s.trace ++
                 [.wrote (mkCmd "status"), .wrote (mkCmd "connect")] } := by
  have h1 : status { s with loggerDisabled := true } =
      .ok (Json.obj fields)
        { s with loggerDisabled := true, queue := cv :: rest,
                 trace := s.trace ++ [.wrote (mkCmd "status")] } := by
    rw [status_eq_rpc _ (by simpa using hr)]
    rw [rpcCall_ok _ _ _ (cv :: rest) (by simpa using hq)
      (by simp [errorSignal, he])]
  have h2 : connect { s with loggerDisabled := false, queue := cv :: rest,
                             trace := s.trace ++ [.wrote (mkCmd "status")] } =
      .raised (.javaScriptError e)
        { s with loggerDisabled := false, queue := rest,
                 trace := (s.trace ++ [.wrote (mkCmd "status")]) ++
                   [.wrote (mkCmd "connect")] } := by
    rw [connect_eq_rpc _ (by simpa using hr)]
    rw [rpcCall_err _ _ _ _ rest (by simp) hce]
  simp only [hr] at h1 h2
  simp [ensure_connected, ensure_ready, hr, h1, Json.getItem, hst, htv, h2]

/-! Claim theorems. -/

/-- C1: every RPC call (connect, disconnect, status, get_model,
get_platform_info, backup_storage, install_storage) fails with a
`JavaScriptError` carrying the `error` entry when the dequeued response
is a dict with a truthy `error` entry, and returns any other dequeued
value unchanged; in both cases the resulting session state is the same
(only the response is consumed and the request recorded), so in
particular the readiness event is untouched. -/
theorem rpc_error_and_result_handling :
    simpleCallSpec connect "connect" ∧
    simpleCallSpec disconnect "disconnect" ∧
    simpleCallSpec status "status" ∧
    connectedCallSpec get_model (mkCmd "getModel") ∧
    connectedCallSpec get_platform_info (mkCmd "getPlatformInfo") ∧
    connectedCallSpec backup_storage (mkCmd "backupStorage") ∧
    (∀ stg, connectedCallSpec (install_storage stg)
      (mkCmdArgs "installStorage" [stg])) := by
  have hsimple : ∀ (call : NW → Outcome Json) (m : String),
      (∀ s, s.ready = true → call s = rpcCall (mkCmd m) s) →
      simpleCallSpec call m := by
    intro call m hcall s v rest hr hq
    rw [hcall s hr]
    cases he : errorSignal v with
    | none => simp only [he]; rw [rpcCall_ok _ _ _ _ hq he]
    | some e => simp only [he]; rw [rpcCall_err _ _ _ _ _ hq he]
  have hgated : ∀ (call : NW → Outcome Json) (cmd : Json),
      (∀ s, call s =
        match ensure_connected s with
        | .blocked => .blocked
        | .raised e s1 => .raised e s1
        | .ok _ s1 => rpcCall cmd s1) →
      connectedCallSpec call cmd := by
    intro call cmd hcall s v rest hr hq
    have hec := ensure_connected_connected s [("status", Json.bool true)]
      (Json.bool true) (v :: rest) hr hq rfl rfl rfl
    rw [hcall s, hec]
    cases he : errorSignal v with
    | none =>
      simp only [he]
      rw [rpcCall_ok _ _ _ rest (by simp) he]
      simp
    | some e =>
      simp only [he]
      rw [rpcCall_err _ _ _ _ rest (by simp) he]
      simp
  refine ⟨hsimple _ _ connect_eq_rpc, hsimple _ _ disconnect_eq_rpc,
    hsimple _ _ status_eq_rpc, hgated _ _ (fun s => rfl),
    hgated _ _ (fun s => rfl), hgated _ _ (fun s => rfl),
    fun stg => hgated _ _ (fun s => rfl)⟩

/-- Witness for C1 at concrete inputs: a successful `connect` returning
a non-dict payload, and a `get_model` on a connected session whose
response is an error object. -/
theorem rpc_error_and_result_handling_witness :
    connect ⟨true, false, [Json.num 7], []⟩ =
      .ok (Json.num 7) ⟨true, false, [], [.wrote (mkCmd "connect")]⟩ ∧
    get_model ⟨true, false,
        [Json.obj [("status", Json.bool true)],
         Json.obj [("error", Json.str "boom")]], []⟩ =
      .raised (.javaScriptError (Json.str "boom"))
        ⟨true, false, [],
         [.wrote (mkCmd "status"), .wrote (mkCmd "getModel")]⟩ := by
  constructor
  · have h := rpc_error_and_result_handling.1
      ⟨true, false, [Json.num 7], []⟩ (Json.num 7) [] rfl rfl
    simpa using h
  · have h := rpc_error_and_result_handling.2.2.2.1
      ⟨true, false, [Json.obj [("status", Json.bool true)],
        Json.obj [("error", Json.str "boom")]], []⟩
      (Json.obj [("error", Json.str "boom")]) [] rfl rfl
    simpa using h

/-- C3: on a ready session whose status response is a dict with a
`status` entry, `ensure_connected` issues exactly one `status` request
when that entry is truthy; exactly one `status` then one `connect`
request when it is falsy; and a failure of either call propagates with
no further request.  When the session is not ready it waits (suspends
on the gate). -/
theorem ensure_connected_behavior :
    (∀ s, s.ready = false → ensure_connected s = .blocked) ∧
    (∀ s fields stv rest, s.ready = true → s.queue = Json.obj fields :: rest →
      lookupField fields "error" = none →
      lookupField fields "status" = some stv →
      (stv.truthy = true → ensure_connected s = .ok ()
        { s with queue := rest, loggerDisabled := false,
                 trace := s.trace ++ [.wrote (mkCmd "status")] }) ∧
      (∀ cv crest, stv.truthy = false → rest = cv :: crest →
        errorSignal cv = none → ensure_connected s = .ok ()
          { s with queue := crest, loggerDisabled := false,
                   trace := s.trace ++
                     [.wrote (mkCmd "status"), .wrote (mkCmd "connect")] }) ∧
      (∀ cv crest e, stv.truthy = false → rest = cv :: crest →
        errorSignal cv = some e →
        ensure_connected s = .raised (.javaScriptError e)
          { s with queue := crest, loggerDisabled := false,
                   trace := s.trace ++
                     [.wrote (mkCmd "status"), .wrote (mkCmd "connect")] })) ∧
    (∀ s v rest e, s.ready = true → s.queue = v :: rest →
      errorSignal v = some e →
      ensure_connected s = .raised (.javaScriptError e)
        { s with queue := rest, loggerDisabled := true,
                 trace := s.trace ++ [.wrote (mkCmd "status")] }) := by
  refine ⟨?_, ?_, ?_⟩
  · intro s h
    simp [ensure_connected, ensure_ready, h]
  · intro s fields stv rest hr hq he hst
    refine ⟨?_, ?_, ?_⟩
    · intro htv
      exact ensure_connected_connected s fields stv rest hr hq he hst htv
    · intro cv crest htv hrest hce
      subst hrest
      exact ensure_connected_reconnect s fields stv cv crest hr hq he hst htv hce
    · intro cv crest e htv hrest hce
      subst hrest
      exact ensure_connected_connect_raise s fields stv cv e crest hr hq he hst
        htv hce
  · intro s v rest e hr hq he
    exact ensure_connected_status_raise s v e rest hr hq he

/-- Witness for C3: the reconnection scenario at concrete inputs, with
the device reporting not connected and the subsequent connect
succeeding. -/
theorem ensure_connected_behavior_witness :
    ensure_connected ⟨true, true,
        [Json.obj [("status", Json.bool false)], Json.obj [("status", Json.str "ok")]],
        []⟩ =
      .ok () ⟨true, false, [],
        [.wrote (mkCmd "status"), .wrote (mkCmd "connect")]⟩ := by
  have h := (ensure_connected_behavior.2.1
      ⟨true, true, [Json.obj [("status", Json.bool false)],
        Json.obj [("status", Json.str "ok")]], []⟩
      [("status", Json.bool false)] (Json.bool false)
      [Json.obj [("status", Json.str "ok")]] rfl rfl rfl rfl).2.1
      (Json.obj [("status", Json.str "ok")]) [] rfl rfl rfl
  simpa using h

/-- C10: a dequeued response that is a dict whose `error` entry is
present but falsy is treated as a success payload and returned
unchanged; no error is raised. -/
theorem falsy_error_field_is_success : ∀ (s : NW) fields v rest,
    s.queue = Json.obj fields :: rest → lookupField fields "error" = some v →
    v.truthy = false →
    getResult s = .ok (Json.obj fields) { s with queue := rest } := by
  intro s fields v rest hq hl hv
  exact getResult_ok s _ rest hq (by simp [errorSignal, hl, hv])

/-- Witness for C10 on the four concrete falsy `error` payloads: empty
string, `False`, `None` and `0`. -/
theorem falsy_error_field_is_success_witness :
    getResult ⟨true, false, [Json.obj [("error", Json.str "")]], []⟩ =
      .ok (Json.obj [("error", Json.str "")]) ⟨true, false, [], []⟩ ∧
    getResult ⟨true, false, [Json.obj [("error", Json.bool false)]], []⟩ =
      .ok (Json.obj [("error", Json.bool false)]) ⟨true, false, [], []⟩ ∧
    getResult ⟨true, false, [Json.obj [("error", Json.null)]], []⟩ =
      .ok (Json.obj [("error", Json.null)]) ⟨true, false, [], []⟩ ∧
    getResult ⟨true, false, [Json.obj [("error", Json.num 0)]], []⟩ =
      .ok (Json.obj [("error", Json.num 0)]) ⟨true, false, [], []⟩ :=
  ⟨falsy_error_field_is_success _ _ _ _ rfl rfl rfl,
   falsy_error_field_is_success _ _ _ _ rfl rfl rfl,
   falsy_error_field_is_success _ _ _ _ rfl rfl rfl,
   falsy_error_field_is_success _ _ _ _ rfl rfl rfl⟩

/-- C2: any number of sequential RPC calls under the one-outstanding
discipline yields exactly one response per call, and the n-th dequeued
value is the response to the n-th written request. -/
theorem sequential_calls_fifo : ∀ (ps : List (Json × Json)) (s : NW),
    s.queue = [] → (∀ p ∈ ps, errorSignal p.2 = none) →
    runCalls ps s = .ok (ps.map Prod.snd)
      { s with queue := [],
               trace := s.trace ++ ps.map (fun p => NWAction.wrote p.1) } := by
  intro ps
  induction ps with
  | nil =>
    intro s hq _
    obtain ⟨r, ld, q, t⟩ := s
    simp only at hq
    subst hq
    simp [runCalls]
  | cons p rest ih =>
    obtain ⟨cmd, resp⟩ := p
    intro s hq hall
    have h1 : getResult (enqueue resp (write cmd s)) =
        .ok resp { s with queue := [], trace := s.trace ++ [.wrote cmd] } := by
      have h := getResult_ok (enqueue resp (write cmd s)) resp []
        (by simp [enqueue, write, hq]) (hall (cmd, resp) (by simp))
      simpa [enqueue, write] using h
    simp only [runCalls, h1]
    rw [ih { s with queue := [], trace := s.trace ++ [.wrote cmd] } rfl
      (fun q hq2 => hall q (by simp [hq2]))]
    simp

/-- Witness for C2: two sequential calls on a fresh ready session. -/
theorem sequential_calls_fifo_witness :
    runCalls [(mkCmd "status", Json.bool true), (mkCmd "getModel", Json.num 42)]
      ⟨true, false, [], []⟩ =
    .ok [Json.bool true, Json.num 42]
      ⟨true, false, [],
       [.wrote (mkCmd "status"), .wrote (mkCmd "getModel")]⟩ := by
  have h := sequential_calls_fifo
    [(mkCmd "status", Json.bool true), (mkCmd "getModel", Json.num 42)]
    ⟨true, false, [], []⟩ rfl
    (by intro p hp
        simp only [List.not_mem_nil, List.mem_cons, or_false] at hp
        rcases hp with h | h <;> (rw [h]; rfl))
  simpa using h

/-- `_get_result` suspends on an empty queue. -/
theorem getResult_nil (s : NW) (hq : s.queue = []) : getResult s = .blocked := by
  simp [getResult, hq]

/-- Inversion of a successful `disconnect`: it requires a ready session
with a queued non-error response and only consumes that response and
records the request. -/
theorem disconnect_ok_inv (s : NW) (v : Json) (s0 : NW)
    (h : disconnect s = .ok v s0) :
    s.ready = true ∧ ∃ rest, s.queue = v :: rest ∧
      s0 = { s with queue := rest,
                    trace := s.trace ++ [.wrote (mkCmd "disconnect")] } := by
  by_cases hr : s.ready
  · rw [disconnect_eq_rpc _ hr] at h
    rw [show rpcCall (mkCmd "disconnect") s =
      getResult (write (mkCmd "disconnect") s) from rfl] at h
    cases hq : s.queue with
    | nil =>
      rw [getResult_nil _ (by simpa [write] using hq)] at h
      cases h
    | cons w rest =>
      cases he : errorSignal w with
      | some e =>
        rw [getResult_err _ w e rest (by simpa [write] using hq) he] at h
        cases h
      | none =>
        rw [getResult_ok _ w rest (by simpa [write] using hq) he] at h
        injection h with h1 h2
        subst h1
        refine ⟨hr, rest, rfl, ?_⟩
        rw [← h2]
        simp [write]
  · simp [disconnect, ensure_ready, hr] at h

/-- C7: `stop` performs, in order, a `disconnect` (whose failure
propagates and aborts the rest), the end-of-input signal, the writer
close, and the reset of the readiness event; no wait on child exit
appears in the performed actions. -/
theorem stop_sequence :
    (∀ s v rest, s.ready = true → s.queue = v :: rest →
      errorSignal v = none →
      stop s = .ok ()
        { s with ready := false, queue := rest,
                 trace := s.trace ++ [.wrote (mkCmd "disconnect"), .sentEof,
                   .closedWriter, .clearedReady] }) ∧
    (∀ s v rest e, s.ready = true → s.queue = v :: rest →
      errorSignal v = some e →
      stop s = .raised (.javaScriptError e)
        { s with queue := rest,
                 trace := s.trace ++ [.wrote (mkCmd "disconnect")] }) ∧
    (∀ s s1, stop s = .ok () s1 → ∃ rest,
      s1 = { s with ready := false, queue := rest,
                    trace := s.trace ++ [.wrote (mkCmd "disconnect"), .sentEof,
                      .closedWriter, .clearedReady] }) := by
  refine ⟨?_, ?_, ?_⟩
  · intro s v rest hr hq he
    have hd : disconnect s = .ok v
        { s with queue := rest,
                 trace := s.trace ++ [.wrote (mkCmd "disconnect")] } := by
      rw [disconnect_eq_rpc _ hr]; exact rpcCall_ok _ _ _ _ hq he
    simp [stop, hd]
  · intro s v rest e hr hq he
    have hd : disconnect s = .raised (.javaScriptError e)
        { s with queue := rest,
                 trace := s.trace ++ [.wrote (mkCmd "disconnect")] } := by
      rw [disconnect_eq_rpc _ hr]; exact rpcCall_err _ _ _ _ _ hq he
    simp [stop, hd]
  · intro s s1 h
    unfold stop at h
    cases hd : disconnect s with
    | blocked => rw [hd] at h; cases h
    | raised e s2 => rw [hd] at h; cases h
    | ok a s2 =>
      rw [hd] at h
      obtain ⟨-, rest, -, hs2⟩ := disconnect_ok_inv s a s2 hd
      injection h with h1 h2
      refine ⟨rest, ?_⟩
      rw [← h2, hs2]
      simp

/-- Witness for C7: `stop` on a ready session whose disconnect response
is `None`. -/
theorem stop_sequence_witness :
    stop ⟨true, false, [Json.null], []⟩ =
      .ok () ⟨false, false, [],
        [.wrote (mkCmd "disconnect"), .sentEof, .closedWriter,
         .clearedReady]⟩ := by
  have h := stop_sequence.1 ⟨true, false, [Json.null], []⟩ Json.null [] rfl rfl
    rfl
  simpa using h

/-- C9: a non-dict value dequeued by the readiness watcher before any
ready marker kills the watcher task with an `AttributeError` (its
`.get` lookup fails), so the readiness event is never set for the
session. -/
theorem watcher_dies_on_non_object : ∀ pre (v : Json) post,
    (∀ u ∈ pre, passesReady u = true) → v.isObj = false →
    waitForReady (pre ++ v :: post) = .dies .attributeError := by
  intro pre
  induction pre with
  | nil =>
    intro v post _ hv
    have hd : v.dictGet "ready" (.bool false) = .error .attributeError := by
      cases v <;> first | rfl | simp [Json.isObj] at hv
    simp [waitForReady, hd]
  | cons u pre ih =>
    intro v post hall hv
    have hu := hall u (by simp)
    cases hdu : u.dictGet "ready" (.bool false) with
    | error e => simp [passesReady, hdu] at hu
    | ok r =>
      have hrt : r.truthy = false := by simpa [passesReady, hdu] using hu
      simp only [List.cons_append, waitForReady, hdu, hrt, Bool.false_eq_true,
        if_false]
      exact ih v post (fun x hx => hall x (by simp [hx])) hv

/-- Witness for C9: a benign status object, then a list, then a ready
marker that is never reached. -/
theorem watcher_dies_on_non_object_witness :
    waitForReady [Json.obj [("a", Json.num 1)], Json.arr [],
      Json.obj [("ready", Json.bool true)]] = .dies .attributeError := by
  have h := watcher_dies_on_non_object [Json.obj [("a", Json.num 1)]]
    (Json.arr []) [Json.obj [("ready", Json.bool true)]]
    (by intro u hu; simp only [List.mem_singleton] at hu; rw [hu]; rfl) rfl
  simpa using h

/-- The readiness watcher sets the event exactly when it dequeues a dict
with a truthy `ready` entry, and stops consuming afterwards. -/
theorem waitForReady_sets : ∀ (pre : List Json) (r : Json) post,
    (∀ u ∈ pre, passesReady u = true) → triggersReady r = true →
    waitForReady (pre ++ r :: post) = .setsReady post := by
  intro pre
  induction pre with
  | nil =>
    intro r post _ htr
    cases hd : r.dictGet "ready" (.bool false) with
    | error e => simp [triggersReady, hd] at htr
    | ok rr =>
      have hrt : rr.truthy = true := by simpa [triggersReady, hd] using htr
      simp [waitForReady, hd, hrt]
  | cons u pre ih =>
    intro r post hall htr
    have hu := hall u (by simp)
    cases hdu : u.dictGet "ready" (.bool false) with
    | error e => simp [passesReady, hdu] at hu
    | ok rr =>
      have hrt : rr.truthy = false := by simpa [passesReady, hdu] using hu
      simp only [List.cons_append, waitForReady, hdu, hrt, Bool.false_eq_true,
        if_false]
      exact ih r post (fun x hx => hall x (by simp [hx])) htr

/-- Without a trigger the watcher consumes everything and stays
suspended on the empty queue. -/
theorem waitForReady_starves : ∀ (pre : List Json),
    (∀ u ∈ pre, passesReady u = true) → waitForReady pre = .starves := by
  intro pre
  induction pre with
  | nil => intro _; rfl
  | cons u pre ih =>
    intro hall
    have hu := hall u (by simp)
    cases hdu : u.dictGet "ready" (.bool false) with
    | error e => simp [passesReady, hdu] at hu
    | ok rr =>
      have hrt : rr.truthy = false := by simpa [passesReady, hdu] using hu
      simp only [waitForReady, hdu, hrt, Bool.false_eq_true, if_false]
      exact ih (fun x hx => hall x (by simp [hx]))

/-- `_get_result` never clears the readiness event. -/
theorem getResult_keepsReady : neverClearsReady getResult := by
  intro s hr
  cases hq : s.queue with
  | nil => simp [getResult, hq, Outcome.keepsReady]
  | cons v rest =>
    cases he : errorSignal v <;>
      simp [getResult, hq, he, Outcome.keepsReady, hr]

/-- The write-then-await skeleton never clears the readiness event. -/
theorem rpcCall_keepsReady (cmd : Json) : neverClearsReady (rpcCall cmd) := by
  intro s hr
  have h := getResult_keepsReady (write cmd s) (by simpa [write] using hr)
  simpa [rpcCall] using h

/-- `connect` never clears the readiness event. -/
theorem connect_keepsReady : neverClearsReady connect := by
  intro s hr
  rw [connect_eq_rpc _ hr]
  exact rpcCall_keepsReady _ s hr

/-- `disconnect` never clears the readiness event. -/
theorem disconnect_keepsReady : neverClearsReady disconnect := by
  intro s hr
  rw [disconnect_eq_rpc _ hr]
  exact rpcCall_keepsReady _ s hr

/-- `status` never clears the readiness event. -/
theorem status_keepsReady : neverClearsReady status := by
  intro s hr
  rw [status_eq_rpc _ hr]
  exact rpcCall_keepsReady _ s hr

/-- `ensure_connected` never clears the readiness event. -/
theorem ensure_connected_keepsReady : neverClearsReady ensure_connected := by
  intro s hr
  simp only [ensure_connected, ensure_ready, hr, if_true]
  have h1 := status_keepsReady (⟨true, true, s.queue, s.trace⟩ : NW) rfl
  cases hst : status (⟨true, true, s.queue, s.trace⟩ : NW) with
  | blocked => simp [Outcome.keepsReady]
  | raised e s2 =>
    rw [hst] at h1
    simpa [Outcome.keepsReady] using h1
  | ok st s2 =>
    rw [hst] at h1
    have h2 : s2.ready = true := by simpa [Outcome.keepsReady] using h1
    cases hgi : st.getItem "status" with
    | error e => simp [hgi, Outcome.keepsReady, h2]
    | ok v =>
      by_cases htv : v.truthy = true
      · simp [hgi, htv, Outcome.keepsReady, h2]
      · simp only [hgi, htv, if_false]
        have h3 := connect_keepsReady
          (⟨s2.ready, false, s2.queue, s2.trace⟩ : NW) h2
        cases hc : connect (⟨s2.ready, false, s2.queue, s2.trace⟩ : NW) with
        | blocked => simp [hc, Outcome.keepsReady]
        | raised e s4 =>
          rw [hc] at h3
          simp only [hc]
          simpa [Outcome.keepsReady] using h3
        | ok a s4 =>
          rw [hc] at h3
          simp only [hc]
          simpa [Outcome.keepsReady] using h3

/-- A connection-gated RPC method never clears the readiness event. -/
theorem gatedRpc_keepsReady (cmd : Json) (call : NW → Outcome Json)
    (hcall : ∀ s, call s =
      match ensure_connected s with
      | .blocked => .blocked
      | .raised e s1 => .raised e s1
      | .ok _ s1 => rpcCall cmd s1) : neverClearsReady call := by
  intro s hr
  rw [hcall]
  have h1 := ensure_connected_keepsReady s hr
  cases hec : ensure_connected s with
  | blocked => simp [Outcome.keepsReady]
  | raised e s1 =>
    rw [hec] at h1
    simpa [Outcome.keepsReady] using h1
  | ok a s1 =>
    rw [hec] at h1
    have h2 : s1.ready = true := by simpa [Outcome.keepsReady] using h1
    exact rpcCall_keepsReady cmd s1 h2

/-- A successful `stop` leaves the readiness event cleared. -/
theorem stop_clears_ready : ∀ s s1, stop s = .ok () s1 → s1.ready = false := by
  intro s s1 h
  obtain ⟨rest, hs1⟩ := stop_sequence.2.2 s s1 h
  rw [hs1]

/-- C4: the readiness gate is one-shot: the watcher sets it exactly on
dequeuing a dict with a truthy `ready` entry and then stops consuming;
`ensure_ready` returns at once when the event is set and suspends while
it is not; no session operation other than `stop` ever clears a set
event; and a successful `stop` leaves it cleared, so a fresh session
needs a new trigger before `ensure_ready` can return. -/
theorem readiness_gate_one_shot :
    (∀ (pre : List Json) (r : Json) post,
      (∀ u ∈ pre, passesReady u = true) → triggersReady r = true →
      waitForReady (pre ++ r :: post) = .setsReady post) ∧
    (∀ (pre : List Json), (∀ u ∈ pre, passesReady u = true) →
      waitForReady pre = .starves) ∧
    (∀ s, s.ready = true → ensure_ready s = .ok () s) ∧
    (∀ s, s.ready = false → ensure_ready s = .blocked) ∧
    neverClearsReady getResult ∧
    neverClearsReady connect ∧
    neverClearsReady disconnect ∧
    neverClearsReady status ∧
    neverClearsReady ensure_connected ∧
    neverClearsReady get_model ∧
    neverClearsReady get_platform_info ∧
    neverClearsReady backup_storage ∧
    (∀ stg, neverClearsReady (install_storage stg)) ∧
    (∀ s s1, stop s = .ok () s1 → s1.ready = false) := by
  refine ⟨waitForReady_sets, waitForReady_starves, ?_, ?_,
    getResult_keepsReady, connect_keepsReady, disconnect_keepsReady,
    status_keepsReady, ensure_connected_keepsReady,
    gatedRpc_keepsReady (mkCmd "getModel") get_model (fun s => rfl),
    gatedRpc_keepsReady (mkCmd "getPlatformInfo") get_platform_info
      (fun s => rfl),
    gatedRpc_keepsReady (mkCmd "backupStorage") backup_storage (fun s => rfl),
    fun stg => gatedRpc_keepsReady (mkCmdArgs "installStorage" [stg])
      (install_storage stg) (fun s => rfl),
    stop_clears_ready⟩
  · intro s h; simp [ensure_ready, h]
  · intro s h; simp [ensure_ready, h]

/-- Witness for C4 at concrete inputs: a skipped value then a trigger,
the two `ensure_ready` behaviours, a preserved event across a call, and
a cleared event after `stop`. -/
theorem readiness_gate_one_shot_witness :
    waitForReady [Json.obj [], Json.obj [("ready", Json.bool true)],
      Json.null] = .setsReady [Json.null] ∧
    ensure_ready ⟨true, false, [], []⟩ = .ok () ⟨true, false, [], []⟩ ∧
    ensure_ready ⟨false, false, [], []⟩ = .blocked ∧
    (getResult ⟨true, false, [Json.num 1], []⟩).keepsReady ∧
    (⟨false, false, [],
      [.wrote (mkCmd "disconnect"), .sentEof, .closedWriter,
       .clearedReady]⟩ : NW).ready = false := by
  obtain ⟨hw1, hw2, hr1, hr2, hk1, hk2, hk3, hk4, hk5, hk6, hk7, hk8, hk9,
    hstop⟩ := readiness_gate_one_shot
  have hset := hw1 [Json.obj []] (Json.obj [("ready", Json.bool true)])
    [Json.null]
    (by intro u hu; simp only [List.mem_singleton] at hu; rw [hu]; rfl) rfl
  exact ⟨by simpa using hset, hr1 _ rfl, hr2 _ rfl, hk1 _ rfl,
    hstop ⟨true, false, [Json.null], []⟩ _ rfl⟩

/-- C6 (the code diverges from this claim): `_redirect_stderr` has no
exit path; at end of stream `readline` returns empty bytes, the stripped
data is empty, and the loop continues, so it never terminates no matter
how many iterations are allowed. -/
theorem stderr_loop_never_exits_on_eof :
    (∀ fuel logged, stderrLoop fuel [] logged = none) ∧
    ¬ stderrTerminatesOnEof := by
  have h : ∀ fuel logged, stderrLoop fuel [] logged = none := by
    intro fuel
    induction fuel with
    | zero => intro logged; rfl
    | succ n ih => intro logged; exact ih logged
  refine ⟨h, ?_⟩
  rintro ⟨fuel, logged, hc⟩
  rw [h fuel []] at hc
  cases hc

/-! Decimal digit lemmas. -/

theorem div10_lt {n : Nat} (h : ¬ n < 10) : n / 10 < n := by
  apply Nat.div_lt_self <;> omega

theorem decChar_digit : ∀ n, isDigitChar (decChar n) = true := by
  intro n
  rcases Nat.lt_or_ge n 9 with hb | hb
  · interval_cases n <;> rfl
  · obtain ⟨m, rfl⟩ := Nat.exists_eq_add_of_le' hb
    rfl

theorem digitVal_decChar : ∀ n, n < 10 → digitVal (decChar n) = n := by
  intro n h
  interval_cases n <;> rfl

theorem digit_ne (c d : Char) (hd : isDigitChar c = true)
    (hnd : isDigitChar d = false) : c ≠ d := by
  intro h
  rw [h, hnd] at hd
  cases hd

theorem digit_not_ws (c : Char) (hd : isDigitChar c = true) :
    isWsChar c = false := by
  cases hw : isWsChar c with
  | false => rfl
  | true =>
    exfalso
    simp only [isWsChar, Bool.or_eq_true, decide_eq_true_eq] at hw
    rcases hw with ((h | h) | h) | h <;> rw [h] at hd <;>
      exact absurd hd (by decide)

theorem digit_not_pyws (c : Char) (hd : isDigitChar c = true) :
    isPyWs c = false := by
  cases hw : isPyWs c with
  | false => rfl
  | true =>
    exfalso
    simp only [isPyWs, Bool.or_eq_true, decide_eq_true_eq] at hw
    rcases hw with ((((h | h) | h) | h) | h) | h <;> rw [h] at hd <;>
      exact absurd hd (by decide)

/-! Decimal rendering lemmas. -/

theorem natToCharsAux_lt (n : Nat) (acc : List Char) (h : n < 10) :
    natToCharsAux n acc = decChar n :: acc := by
  rw [natToCharsAux.eq_def]
  simp [h]

theorem natToCharsAux_ge (n : Nat) (acc : List Char) (h : ¬ n < 10) :
    natToCharsAux n acc = natToCharsAux (n / 10) (decChar (n % 10) :: acc) := by
  rw [natToCharsAux.eq_def]
  simp [h]

theorem natToCharsAux_append (n : Nat) : ∀ acc,
    natToCharsAux n acc = natToChars n ++ acc := by
  induction n using Nat.strong_induction_on with
  | _ n ihn =>
    intro acc
    by_cases hlt : n < 10
    · rw [natToCharsAux_lt n acc hlt, natToChars, natToCharsAux_lt n [] hlt]
      rfl
    · rw [natToCharsAux_ge n acc hlt, natToChars, natToCharsAux_ge n [] hlt,
        ihn (n / 10) (div10_lt hlt) (decChar (n % 10) :: acc),
        ihn (n / 10) (div10_lt hlt) [decChar (n % 10)]]
      simp

theorem natToChars_step (n : Nat) (h : ¬ n < 10) :
    natToChars n = natToChars (n / 10) ++ [decChar (n % 10)] := by
  rw [natToChars, natToCharsAux_ge n [] h, natToCharsAux_append]

theorem natToChars_all_digits (n : Nat) :
    ∀ c ∈ natToChars n, isDigitChar c = true := by
  induction n using Nat.strong_induction_on with
  | _ n ihn =>
    by_cases hlt : n < 10
    · rw [natToChars, natToCharsAux_lt n [] hlt]
      intro c hc
      simp only [List.mem_singleton] at hc
      rw [hc]
      exact decChar_digit n
    · rw [natToChars_step n hlt]
      intro c hc
      rcases List.mem_append.mp hc with h1 | h1
      · exact ihn (n / 10) (div10_lt hlt) c h1
      · simp only [List.mem_singleton] at h1
        rw [h1]
        exact decChar_digit _

theorem natToChars_head (n : Nat) :
    ∃ c t, natToChars n = c :: t ∧ isDigitChar c = true := by
  induction n using Nat.strong_induction_on with
  | _ n ihn =>
    by_cases hlt : n < 10
    · exact ⟨decChar n, [], by rw [natToChars, natToCharsAux_lt n [] hlt],
        decChar_digit n⟩
    · obtain ⟨c, t, hct, hcd⟩ := ihn (n / 10) (div10_lt hlt)
      exact ⟨c, t ++ [decChar (n % 10)],
        by rw [natToChars_step n hlt, hct]; rfl, hcd⟩

theorem natToChars_last (n : Nat) :
    ∃ t c, natToChars n = t ++ [c] ∧ isDigitChar c = true := by
  by_cases h : n < 10
  · exact ⟨[], decChar n, by rw [natToChars, natToCharsAux_lt n [] h]; rfl,
      decChar_digit n⟩
  · exact ⟨natToChars (n / 10), decChar (n % 10), natToChars_step n h,
      decChar_digit _⟩

theorem digitsValAux_append (xs : List Char) : ∀ a ys,
    digitsValAux a (xs ++ ys) = digitsValAux (digitsValAux a xs) ys := by
  induction xs with
  | nil => intro a ys; rfl
  | cons c cs ih =>
    intro a ys
    rw [List.cons_append]
    rw [show digitsValAux a (c :: (cs ++ ys)) =
      digitsValAux (a * 10 + digitVal c) (cs ++ ys) from rfl]
    rw [ih]
    rfl

theorem digitsValAux_natToChars (m : Nat) :
    digitsValAux 0 (natToChars m) = m := by
  induction m using Nat.strong_induction_on with
  | _ n ihn =>
    by_cases hlt : n < 10
    · rw [natToChars]
      rw [natToCharsAux_lt n [] hlt]
      show 0 * 10 + digitVal (decChar n) = n
      rw [digitVal_decChar n hlt]
      omega
    · rw [natToChars_step n hlt, digitsValAux_append,
        ihn (n / 10) (div10_lt hlt)]
      show n / 10 * 10 + digitVal (decChar (n % 10)) = n
      rw [digitVal_decChar (n % 10) (by omega)]
      omega

theorem digits_span (ds rest : List Char)
    (hall : ∀ c ∈ ds, isDigitChar c = true) (hrest : headNotDigit rest = true) :
    (ds ++ rest).takeWhile isDigitChar = ds ∧
    (ds ++ rest).dropWhile isDigitChar = rest := by
  induction ds with
  | nil =>
    cases rest with
    | nil => simp
    | cons c cs =>
      have hc : isDigitChar c = false := by
        simpa [headNotDigit] using hrest
      simp [List.takeWhile_cons, List.dropWhile_cons, hc]
  | cons d ds ih =>
    have hd := hall d (by simp)
    have hrec := ih (fun c hc => hall c (by simp [hc]))
    simp [List.takeWhile_cons, List.dropWhile_cons, hd, hrec.1, hrec.2]

theorem natToChars_ne_nil (n : Nat) : natToChars n ≠ [] := by
  obtain ⟨c, t, hct, -⟩ := natToChars_head n
  rw [hct]
  simp

theorem parseNumTail_nat (neg : Bool) (n : Nat) (rest : List Char)
    (hrest : headNotDigit rest = true) :
    parseNumTail neg (natToChars n ++ rest) =
      some (.num (if neg then -(n : Int) else (n : Int)), rest) := by
  obtain ⟨htake, hdrop⟩ :=
    digits_span (natToChars n) rest (natToChars_all_digits n) hrest
  have hne : (natToChars n).isEmpty = false := by
    cases hx : natToChars n with
    | nil => exact absurd hx (natToChars_ne_nil n)
    | cons c t => rfl
  simp only [parseNumTail, htake, hdrop, hne, digitsValAux_natToChars,
    Bool.false_eq_true, if_false]

theorem parseVal_int (fuel : Nat) (i : Int) (rest : List Char)
    (hrest : headNotDigit rest = true) :
    parseVal (fuel + 1) (intToChars i ++ rest) = some (.num i, rest) := by
  by_cases hneg : i < 0
  · rw [intToChars, if_pos hneg, List.cons_append]
    have h := parseNumTail_nat true i.natAbs rest hrest
    simp [parseVal, obrace, h, -Int.natCast_natAbs]
    omega
  · rw [intToChars, if_neg hneg]
    obtain ⟨c, t, hct, hcd⟩ := natToChars_head i.toNat
    have hn1 : c ≠ 'n' := digit_ne c 'n' hcd (by decide)
    have hn2 : c ≠ 't' := digit_ne c 't' hcd (by decide)
    have hn3 : c ≠ 'f' := digit_ne c 'f' hcd (by decide)
    have hn4 : c ≠ '"' := digit_ne c '"' hcd (by decide)
    have hn5 : c ≠ '[' := digit_ne c '[' hcd (by decide)
    have hn6 : c ≠ obrace := digit_ne c obrace hcd (by decide)
    have hn7 : c ≠ '-' := digit_ne c '-' hcd (by decide)
    have h2 : c :: (t ++ rest) = natToChars i.toNat ++ rest := by
      rw [hct]
      rfl
    rw [hct, List.cons_append]
    simp [parseVal, hn1, hn2, hn3, hn4, hn5, hn6, hn7, hcd, h2,
      parseNumTail_nat false i.toNat rest hrest]
    omega

theorem parseStringBody_escape : ∀ (s : List Char) (rest : List Char),
    parseStringBody (escapeString s ++ '"' :: rest) = some (s, rest) := by
  intro s
  induction s with
  | nil =>
    intro rest
    rw [show escapeString [] = [] from rfl, List.nil_append,
      parseStringBody.eq_def]
    simp
  | cons c cs ih =>
    intro rest
    simp only [escapeString, List.append_assoc]
    by_cases h1 : c = '"'
    · subst h1
      rw [show escapeChar '"' = ['\\', '"'] from rfl, List.cons_append,
        List.cons_append, List.nil_append, parseStringBody.eq_def]
      simp [unescapeChar, ih]
    · by_cases h2 : c = '\\'
      · subst h2
        rw [show escapeChar '\\' = ['\\', '\\'] from rfl, List.cons_append,
          List.cons_append, List.nil_append, parseStringBody.eq_def]
        simp [unescapeChar, ih]
      · by_cases h3 : c = Char.ofNat 10
        · subst h3
          rw [show escapeChar (Char.ofNat 10) = ['\\', 'n'] from rfl,
            List.cons_append, List.cons_append, List.nil_append,
            parseStringBody.eq_def]
          simp [unescapeChar, ih]
        · by_cases h4 : c = Char.ofNat 9
          · subst h4
            rw [show escapeChar (Char.ofNat 9) = ['\\', 't'] from rfl,
              List.cons_append, List.cons_append, List.nil_append,
              parseStringBody.eq_def]
            simp [unescapeChar, ih]
          · by_cases h5 : c = Char.ofNat 13
            · subst h5
              rw [show escapeChar (Char.ofNat 13) = ['\\', 'r'] from rfl,
                List.cons_append, List.cons_append, List.nil_append,
                parseStringBody.eq_def]
              simp [unescapeChar, ih]
            · by_cases h6 : c = Char.ofNat 8
              · subst h6
                rw [show escapeChar (Char.ofNat 8) = ['\\', 'b'] from rfl,
                  List.cons_append, List.cons_append, List.nil_append,
                  parseStringBody.eq_def]
                simp [unescapeChar, ih]
              · by_cases h7 : c = Char.ofNat 12
                · subst h7
                  rw [show escapeChar (Char.ofNat 12) = ['\\', 'f'] from rfl,
                    List.cons_append, List.cons_append, List.nil_append,
                    parseStringBody.eq_def]
                  simp [unescapeChar, ih]
                · have hec : escapeChar c = [c] := by
                    simp [escapeChar, h1, h2, h3, h4, h5, h6, h7]
                  rw [hec, List.cons_append, List.nil_append,
                    parseStringBody.eq_def]
                  simp [h1, h2, ih]

theorem arrTail_last : ∀ vs, ∃ t, arrTail vs = t ++ [']'] := by
  intro vs
  induction vs with
  | nil => exact ⟨[], by simp [arrTail]⟩
  | cons v vs ih =>
    obtain ⟨t, ht⟩ := ih
    exact ⟨',' :: ' ' :: (dumps v ++ t), by simp [arrTail, ht]⟩

theorem fieldsTail_last : ∀ fs, ∃ t, fieldsTail fs = t ++ [cbrace] := by
  intro fs
  induction fs with
  | nil => exact ⟨[], by simp [fieldsTail]⟩
  | cons f fs ih =>
    obtain ⟨t, ht⟩ := ih
    exact ⟨',' :: ' ' :: (dumpField f ++ t), by simp [fieldsTail, ht]⟩

theorem dumps_head (v : Json) : ∃ c t, dumps v = c :: t ∧ isWsChar c = false ∧
    isPyWs c = false ∧ c ≠ ']' := by
  cases v with
  | null => exact ⟨'n', ['u', 'l', 'l'], by simp [dumps], rfl, rfl,
      by decide⟩
  | bool bb =>
    cases bb with
    | true => exact ⟨'t', ['r', 'u', 'e'], by simp [dumps], rfl, rfl,
        by decide⟩
    | false => exact ⟨'f', ['a', 'l', 's', 'e'], by simp [dumps], rfl, rfl,
        by decide⟩
  | num i =>
    by_cases hneg : i < 0
    · exact ⟨'-', natToChars i.natAbs,
        by simp [dumps, intToChars, hneg], rfl, rfl, by decide⟩
    · obtain ⟨c, t, hct, hcd⟩ := natToChars_head i.toNat
      exact ⟨c, t, by simp [dumps, intToChars, hneg, hct],
        digit_not_ws c hcd, digit_not_pyws c hcd,
        digit_ne c ']' hcd (by decide)⟩
  | str s => exact ⟨'"', escapeString s.data ++ ['"'], by simp [dumps],
      rfl, rfl, by decide⟩
  | arr es =>
    cases es with
    | nil => exact ⟨'[', [']'], by simp [dumps], rfl, rfl,
        by decide⟩
    | cons v vs => exact ⟨'[', dumps v ++ arrTail vs, by simp [dumps],
        rfl, rfl, by decide⟩
  | obj fs =>
    cases fs with
    | nil => exact ⟨obrace, [cbrace], by simp [dumps], rfl, rfl,
        by decide⟩
    | cons f fs => exact ⟨obrace, dumpField f ++ fieldsTail fs,
        by simp [dumps], rfl, rfl, by decide⟩

theorem dumps_last (v : Json) : ∃ t c, dumps v = t ++ [c] ∧
    isPyWs c = false := by
  cases v with
  | null => exact ⟨['n', 'u', 'l'], 'l', by simp [dumps], by decide⟩
  | bool bb =>
    cases bb with
    | true => exact ⟨['t', 'r', 'u'], 'e', by simp [dumps], by decide⟩
    | false => exact ⟨['f', 'a', 'l', 's'], 'e', by simp [dumps], by decide⟩
  | num i =>
    by_cases hneg : i < 0
    · obtain ⟨t, c, ht, hcd⟩ := natToChars_last i.natAbs
      exact ⟨'-' :: t, c, by simp [dumps, intToChars, hneg, ht],
        digit_not_pyws c hcd⟩
    · obtain ⟨t, c, ht, hcd⟩ := natToChars_last i.toNat
      exact ⟨t, c, by simp [dumps, intToChars, hneg, ht],
        digit_not_pyws c hcd⟩
  | str s => exact ⟨'"' :: escapeString s.data, '"', by simp [dumps],
      by decide⟩
  | arr es =>
    cases es with
    | nil => exact ⟨['['], ']', by simp [dumps], by decide⟩
    | cons v vs =>
      obtain ⟨t, ht⟩ := arrTail_last vs
      exact ⟨'[' :: (dumps v ++ t), ']', by simp [dumps, ht], by decide⟩
  | obj fs =>
    cases fs with
    | nil => exact ⟨[obrace], cbrace, by simp [dumps], by decide⟩
    | cons f fs =>
      obtain ⟨t, ht⟩ := fieldsTail_last fs
      exact ⟨obrace :: (dumpField f ++ t), cbrace, by simp [dumps, ht],
        by decide⟩

theorem jsize_pos (v : Json) : 1 ≤ jsize v := by
  cases v <;> simp [jsize]

theorem skipWs_dumps (v : Json) (X : List Char) :
    skipWs (dumps v ++ X) = dumps v ++ X := by
  obtain ⟨c, t, hct, hws, -, -⟩ := dumps_head v
  rw [hct, List.cons_append]
  simp [skipWs, List.dropWhile_cons, hws]

theorem skipWs_space_dumps (v : Json) (X : List Char) :
    skipWs (' ' :: (dumps v ++ X)) = dumps v ++ X := by
  obtain ⟨c, t, hct, hws, -, -⟩ := dumps_head v
  rw [hct, List.cons_append]
  simp [skipWs, List.dropWhile_cons, hws,
    show isWsChar ' ' = true from by decide]

theorem headNotDigit_arrTail (vs : List Json) (rest : List Char) :
    headNotDigit (arrTail vs ++ rest) = true := by
  cases vs with
  | nil =>
    rw [show arrTail [] = [']'] from by simp [arrTail], List.cons_append]
    rfl
  | cons v vs =>
    rw [show arrTail (v :: vs) = ',' :: ' ' :: (dumps v ++ arrTail vs) from
      by simp [arrTail], List.cons_append]
    rfl

theorem headNotDigit_fieldsTail (fs : List (String × Json))
    (rest : List Char) : headNotDigit (fieldsTail fs ++ rest) = true := by
  cases fs with
  | nil =>
    rw [show fieldsTail [] = [cbrace] from by simp [fieldsTail],
      List.cons_append]
    rfl
  | cons f fs =>
    rw [show fieldsTail (f :: fs) = ',' :: ' ' :: (dumpField f ++ fieldsTail fs)
      from by simp [fieldsTail], List.cons_append]
    rfl

theorem skipWs_cons_nws (c : Char) (X : List Char) (h : isWsChar c = false) :
    skipWs (c :: X) = c :: X := by
  simp [skipWs, List.dropWhile_cons, h]

theorem skipWs_quote (X : List Char) : skipWs ('"' :: X) = '"' :: X :=
  skipWs_cons_nws '"' X (by decide)

theorem skipWs_colon (X : List Char) : skipWs (':' :: X) = ':' :: X :=
  skipWs_cons_nws ':' X (by decide)

theorem skipWs_comma (X : List Char) : skipWs (',' :: X) = ',' :: X :=
  skipWs_cons_nws ',' X (by decide)

theorem skipWs_rbrack (X : List Char) : skipWs (']' :: X) = ']' :: X :=
  skipWs_cons_nws ']' X (by decide)

theorem skipWs_cbrace (X : List Char) :
    skipWs ('\x7d' :: X) = '\x7d' :: X :=
  skipWs_cons_nws '\x7d' X (by decide)

theorem skipWs_space (X : List Char) : skipWs (' ' :: X) = skipWs X := by
  simp [skipWs, List.dropWhile_cons, show isWsChar ' ' = true from by decide]

/-- The decoder inverts the serializer: on any input that starts with a
serialized value, `parseVal` returns that value and the untouched
remainder (with the matching statements for nonempty array items and
object members), provided the remainder does not begin with a digit and
the fuel covers the structural size of the value. -/
theorem parse_dumps : ∀ fuel : Nat,
    (∀ (v : Json) rest, jsize v ≤ fuel → headNotDigit rest = true →
      parseVal fuel (dumps v ++ rest) = some (v, rest)) ∧
    (∀ (v : Json) (vs : List Json) rest, 1 + jsize v + jsizeList vs ≤ fuel →
      parseElems fuel (dumps v ++ (arrTail vs ++ rest)) =
        some (v :: vs, rest)) ∧
    (∀ (k : String) (w : Json) (fs : List (String × Json)) rest,
      1 + jsize w + jsizeFields fs ≤ fuel →
      parseFields fuel (dumpField (k, w) ++ (fieldsTail fs ++ rest)) =
        some ((k, w) :: fs, rest)) := by
  intro fuel
  induction fuel with
  | zero =>
    refine ⟨?_, ?_, ?_⟩
    · intro v rest hsz _
      exact absurd hsz (by have := jsize_pos v; omega)
    · intro v vs rest hsz
      exact absurd hsz (by omega)
    · intro k w fs rest hsz
      exact absurd hsz (by omega)
  | succ fuel ih =>
    obtain ⟨ihv, ihe, ihf⟩ := ih
    refine ⟨?_, ?_, ?_⟩
    · intro v rest hsz hrest
      cases v with
      | null =>
        rw [show dumps Json.null = ['n', 'u', 'l', 'l'] from by simp [dumps]]
        simp [parseVal, dropLit]
      | bool b =>
        cases b with
        | true =>
          rw [show dumps (Json.bool true) = ['t', 'r', 'u', 'e'] from
            by simp [dumps]]
          simp [parseVal, dropLit]
        | false =>
          rw [show dumps (Json.bool false) = ['f', 'a', 'l', 's', 'e'] from
            by simp [dumps]]
          simp [parseVal, dropLit]
      | num i =>
        rw [show dumps (Json.num i) = intToChars i from by simp [dumps]]
        exact parseVal_int fuel i rest hrest
      | str s =>
        rw [show dumps (Json.str s) = '"' :: (escapeString s.data ++ ['"'])
          from by simp [dumps]]
        rw [List.cons_append, List.append_assoc, List.singleton_append]
        simp [parseVal, parseStringBody_escape s.data rest]
      | arr es =>
        cases es with
        | nil =>
          rw [show dumps (Json.arr []) = ['[', ']'] from by simp [dumps]]
          rw [List.cons_append, List.cons_append, List.nil_append]
          simp [parseVal, skipWs_rbrack]
        | cons v2 vs =>
          rw [show dumps (Json.arr (v2 :: vs)) =
            '[' :: (dumps v2 ++ arrTail vs) from by simp [dumps]]
          rw [List.cons_append, List.append_assoc]
          obtain ⟨c, t, hct, hws, -, hne⟩ := dumps_head v2
          have helems := ihe v2 vs rest
            (by simp only [jsize, jsizeList] at hsz; omega)
          rw [hct, List.cons_append] at helems ⊢
          simp [parseVal, skipWs_cons_nws c _ hws, hne, helems]
      | obj fs =>
        cases fs with
        | nil =>
          rw [show dumps (Json.obj []) = [obrace, cbrace] from by simp [dumps]]
          rw [List.cons_append, List.cons_append, List.nil_append]
          simp [parseVal, skipWs_cbrace, obrace, cbrace]
        | cons f fs2 =>
          obtain ⟨k, w⟩ := f
          rw [show dumps (Json.obj ((k, w) :: fs2)) =
            obrace :: (dumpField (k, w) ++ fieldsTail fs2) from
            by simp [dumps]]
          rw [List.cons_append, List.append_assoc]
          have hfields := ihf k w fs2 rest
            (by simp only [jsize, jsizeFields] at hsz; omega)
          rw [show dumpField (k, w) =
            '"' :: (escapeString k.data ++ '"' :: ':' :: ' ' :: dumps w) from
            by simp [dumpField]] at hfields ⊢
          rw [List.cons_append] at hfields ⊢
          simp only [List.cons_append, List.append_assoc] at hfields
          simp [parseVal, skipWs_quote, obrace, cbrace, hfields,
            List.append_assoc]
    · intro v vs rest hsz
      have hval := ihv v (arrTail vs ++ rest) (by omega)
        (headNotDigit_arrTail vs rest)
      cases vs with
      | nil =>
        rw [show arrTail [] = [']'] from by simp [arrTail]] at hval ⊢
        rw [List.singleton_append] at hval ⊢
        simp [parseElems, hval, skipWs_rbrack]
      | cons v2 vs2 =>
        rw [show arrTail (v2 :: vs2) = ',' :: ' ' :: (dumps v2 ++ arrTail vs2)
          from by simp [arrTail]] at hval ⊢
        simp only [List.cons_append, List.append_assoc] at hval
        have helems := ihe v2 vs2 rest
          (by simp only [jsizeList] at hsz; omega)
        have hskip2 := skipWs_space_dumps v2 (arrTail vs2 ++ rest)
        have hs := skipWs_dumps v (',' :: ' ' ::
          (dumps v2 ++ (arrTail vs2 ++ rest)))
        simp [parseElems, hval, skipWs_comma, skipWs_space, hskip2, helems,
          hs, List.append_assoc]
    · intro k w fs rest hsz
      rw [show dumpField (k, w) =
        '"' :: (escapeString k.data ++ '"' :: ':' :: ' ' :: dumps w) from
        by simp [dumpField]]
      rw [List.cons_append, List.append_assoc]
      have hval := ihv w (fieldsTail fs ++ rest) (by omega)
        (headNotDigit_fieldsTail fs rest)
      have hskip3 := skipWs_space_dumps w (fieldsTail fs ++ rest)
      cases fs with
      | nil =>
        rw [show fieldsTail [] = [cbrace] from by simp [fieldsTail]]
          at hval hskip3 ⊢
        rw [List.singleton_append] at hval hskip3 ⊢
        have hs := skipWs_dumps w (cbrace :: rest)
        simp only [cbrace] at hval hskip3 hs
        simp [parseFields, parseStringBody_escape k.data, skipWs_colon,
          skipWs_space, skipWs_cbrace, hskip3, hval, hs, cbrace,
          List.append_assoc]
      | cons f2 fs2 =>
        obtain ⟨k2, w2⟩ := f2
        have hfields := ihf k2 w2 fs2 rest
          (by simp only [jsizeFields] at hsz; omega)
        rw [show fieldsTail ((k2, w2) :: fs2) =
          ',' :: ' ' :: (dumpField (k2, w2) ++ fieldsTail fs2) from
          by simp [fieldsTail]] at hval hskip3 ⊢
        have hq2 : dumpField (k2, w2) =
            '"' :: (escapeString k2.data ++ '"' :: ':' :: ' ' :: dumps w2) :=
          by simp [dumpField]
        simp only [List.cons_append, List.append_assoc] at hval
        have hs := skipWs_dumps w (',' :: ' ' ::
          (dumpField (k2, w2) ++ (fieldsTail fs2 ++ rest)))
        have hs5 : skipWs (dumpField (k2, w2) ++ (fieldsTail fs2 ++ rest)) =
            dumpField (k2, w2) ++ (fieldsTail fs2 ++ rest) := by
          rw [hq2, List.cons_append, skipWs_quote]
        simp [parseFields, parseStringBody_escape k.data, skipWs_colon,
          skipWs_space, skipWs_comma, hval, cbrace, hs, hs5, hfields,
          List.append_assoc]

theorem dumps_len_bound : ∀ n : Nat,
    (∀ v : Json, jsize v ≤ n → jsize v ≤ (dumps v).length) ∧
    (∀ vs : List Json, jsizeList vs ≤ n →
      jsizeList vs + 1 ≤ (arrTail vs).length) ∧
    (∀ fs : List (String × Json), jsizeFields fs ≤ n →
      jsizeFields fs + 1 ≤ (fieldsTail fs).length) := by
  intro bnd
  induction bnd with
  | zero =>
    refine ⟨fun v h => ?_, fun vs h => ?_, fun fs h => ?_⟩
    · exact absurd h (by have := jsize_pos v; omega)
    · cases vs with
      | nil =>
        rw [show arrTail [] = [']'] from by simp [arrTail]]
        simp [jsizeList]
      | cons v vs =>
        exfalso
        simp [jsizeList] at h
    · cases fs with
      | nil =>
        rw [show fieldsTail [] = [cbrace] from by simp [fieldsTail]]
        simp [jsizeFields]
      | cons f fs =>
        exfalso
        simp [jsizeFields] at h
  | succ n ih =>
    obtain ⟨ih1, ih2, ih3⟩ := ih
    refine ⟨?_, ?_, ?_⟩
    · intro v hsz
      cases v with
      | null =>
        rw [show dumps Json.null = ['n', 'u', 'l', 'l'] from by simp [dumps]]
        simp [jsize]
      | bool b =>
        cases b with
        | true =>
          rw [show dumps (Json.bool true) = ['t', 'r', 'u', 'e'] from
            by simp [dumps]]
          simp [jsize]
        | false =>
          rw [show dumps (Json.bool false) = ['f', 'a', 'l', 's', 'e'] from
            by simp [dumps]]
          simp [jsize]
      | num i =>
        rw [show dumps (Json.num i) = intToChars i from by simp [dumps]]
        simp only [jsize]
        by_cases hneg : i < 0
        · rw [intToChars, if_pos hneg]
          simp
        · rw [intToChars, if_neg hneg]
          obtain ⟨c, t, hct, -⟩ := natToChars_head i.toNat
          rw [hct]
          simp
      | str s =>
        rw [show dumps (Json.str s) = '"' :: (escapeString s.data ++ ['"'])
          from by simp [dumps]]
        simp [jsize]
      | arr es =>
        cases es with
        | nil =>
          rw [show dumps (Json.arr []) = ['[', ']'] from by simp [dumps]]
          simp [jsize, jsizeList]
        | cons v2 vs =>
          have h1 := ih1 v2 (by simp only [jsize, jsizeList] at hsz; omega)
          have h2 := ih2 vs (by simp only [jsize, jsizeList] at hsz; omega)
          rw [show dumps (Json.arr (v2 :: vs)) =
            '[' :: (dumps v2 ++ arrTail vs) from by simp [dumps]]
          simp only [jsize, jsizeList, List.length_cons, List.length_append]
          omega
      | obj fs =>
        cases fs with
        | nil =>
          rw [show dumps (Json.obj []) = [obrace, cbrace] from by simp [dumps]]
          simp [jsize, jsizeFields]
        | cons f fs2 =>
          obtain ⟨k, w⟩ := f
          have h1 := ih1 w (by simp only [jsize, jsizeFields] at hsz; omega)
          have h3 := ih3 fs2 (by simp only [jsize, jsizeFields] at hsz; omega)
          rw [show dumps (Json.obj ((k, w) :: fs2)) =
            obrace :: (dumpField (k, w) ++ fieldsTail fs2) from
            by simp [dumps]]
          rw [show dumpField (k, w) =
            '"' :: (escapeString k.data ++ '"' :: ':' :: ' ' :: dumps w) from
            by simp [dumpField]]
          simp only [jsize, jsizeFields, List.length_cons, List.length_append]
          omega
    · intro vs hsz
      cases vs with
      | nil =>
        rw [show arrTail [] = [']'] from by simp [arrTail]]
        simp [jsizeList]
      | cons v2 vs2 =>
        have h1 := ih1 v2 (by simp only [jsizeList] at hsz; omega)
        have h2 := ih2 vs2 (by simp only [jsizeList] at hsz; omega)
        rw [show arrTail (v2 :: vs2) = ',' :: ' ' :: (dumps v2 ++ arrTail vs2)
          from by simp [arrTail]]
        simp only [jsizeList, List.length_cons, List.length_append]
        omega
    · intro fs hsz
      cases fs with
      | nil =>
        rw [show fieldsTail [] = [cbrace] from by simp [fieldsTail]]
        simp [jsizeFields]
      | cons f2 fs2 =>
        obtain ⟨k2, w2⟩ := f2
        have h1 := ih1 w2 (by simp only [jsizeFields] at hsz; omega)
        have h3 := ih3 fs2 (by simp only [jsizeFields] at hsz; omega)
        rw [show fieldsTail ((k2, w2) :: fs2) =
          ',' :: ' ' :: (dumpField (k2, w2) ++ fieldsTail fs2) from
          by simp [fieldsTail]]
        rw [show dumpField (k2, w2) =
          '"' :: (escapeString k2.data ++ '"' :: ':' :: ' ' :: dumps w2) from
          by simp [dumpField]]
        simp only [jsizeFields, List.length_cons, List.length_append]
        omega

theorem jsize_le_dumps_len (v : Json) : jsize v ≤ (dumps v).length :=
  (dumps_len_bound (jsize v)).1 v le_rfl

theorem loads_dumps (v : Json) : loads (dumps v) = some v := by
  obtain ⟨c, t, hct, hws, -, -⟩ := dumps_head v
  have hskip : skipWs (dumps v) = dumps v := by
    rw [hct]
    exact skipWs_cons_nws c t hws
  have h := (parse_dumps ((dumps v).length + 1)).1 v []
    (by have := jsize_le_dumps_len v; omega) rfl
  rw [List.append_nil] at h
  simp only [loads]
  rw [hskip, h]
  rfl

theorem pyStrip_framed (v : Json) :
    pyStrip (dumps v ++ [Char.ofNat 10]) = dumps v := by
  obtain ⟨c, t, hct, -, hcp, -⟩ := dumps_head v
  obtain ⟨t2, c2, h2, hc2⟩ := dumps_last v
  have hd : (dumps v ++ [Char.ofNat 10]).dropWhile isPyWs =
      dumps v ++ [Char.ofNat 10] := by
    rw [hct, List.cons_append]
    simp [List.dropWhile_cons, hcp]
  have hrev2 : (dumps v).reverse.dropWhile isPyWs = (dumps v).reverse := by
    rw [h2]
    simp [List.reverse_append, List.dropWhile_cons, hc2]
  rw [pyStrip, hd, List.reverse_append]
  simp [List.dropWhile_cons, show isPyWs (Char.ofNat 10) = true from by decide,
    hrev2]

theorem decodeLine_framed (v : Json) : decodeLine (writeFramed v) = some v := by
  rw [decodeLine, writeFramed, pyStrip_framed, loads_dumps]

theorem escapeChar_no_nl (c : Char) : Char.ofNat 10 ∉ escapeChar c := by
  unfold escapeChar
  split_ifs with h1 h2 h3 h4 h5 h6 h7
  · decide
  · decide
  · decide
  · decide
  · decide
  · decide
  · decide
  · simp only [List.mem_singleton]
    intro hm
    exact h3 hm.symm

theorem escapeString_no_nl (s : List Char) :
    Char.ofNat 10 ∉ escapeString s := by
  induction s with
  | nil => simp [escapeString]
  | cons c cs ih =>
    intro hm
    rw [show escapeString (c :: cs) = escapeChar c ++ escapeString cs from
      by simp [escapeString]] at hm
    rcases List.mem_append.mp hm with h | h
    · exact escapeChar_no_nl c h
    · exact ih h

theorem natToChars_no_nl (n : Nat) : Char.ofNat 10 ∉ natToChars n := by
  intro hm
  have := natToChars_all_digits n _ hm
  exact absurd this (by decide)

theorem intToChars_no_nl (i : Int) : Char.ofNat 10 ∉ intToChars i := by
  intro hm
  by_cases hneg : i < 0
  · rw [intToChars, if_pos hneg] at hm
    rcases List.mem_cons.mp hm with h | h
    · exact absurd h (by decide)
    · exact natToChars_no_nl _ h
  · rw [intToChars, if_neg hneg] at hm
    exact natToChars_no_nl _ hm

theorem dumps_no_nl_bound : ∀ n : Nat,
    (∀ v : Json, jsize v ≤ n → Char.ofNat 10 ∉ dumps v) ∧
    (∀ vs : List Json, jsizeList vs ≤ n → Char.ofNat 10 ∉ arrTail vs) ∧
    (∀ fs : List (String × Json), jsizeFields fs ≤ n →
      Char.ofNat 10 ∉ fieldsTail fs) := by
  intro bnd
  induction bnd with
  | zero =>
    refine ⟨fun v h => ?_, fun vs h => ?_, fun fs h => ?_⟩
    · exact absurd h (by have := jsize_pos v; omega)
    · cases vs with
      | nil =>
        rw [show arrTail [] = [']'] from by simp [arrTail]]
        decide
      | cons v vs =>
        exfalso
        simp [jsizeList] at h
    · cases fs with
      | nil =>
        rw [show fieldsTail [] = [cbrace] from by simp [fieldsTail]]
        decide
      | cons f fs =>
        exfalso
        simp [jsizeFields] at h
  | succ n ih =>
    obtain ⟨ih1, ih2, ih3⟩ := ih
    refine ⟨?_, ?_, ?_⟩
    · intro v hsz
      cases v with
      | null =>
        rw [show dumps Json.null = ['n', 'u', 'l', 'l'] from by simp [dumps]]
        decide
      | bool b =>
        cases b with
        | true =>
          rw [show dumps (Json.bool true) = ['t', 'r', 'u', 'e'] from
            by simp [dumps]]
          decide
        | false =>
          rw [show dumps (Json.bool false) = ['f', 'a', 'l', 's', 'e'] from
            by simp [dumps]]
          decide
      | num i =>
        rw [show dumps (Json.num i) = intToChars i from by simp [dumps]]
        exact intToChars_no_nl i
      | str s =>
        rw [show dumps (Json.str s) = '"' :: (escapeString s.data ++ ['"'])
          from by simp [dumps]]
        intro hm
        rcases List.mem_cons.mp hm with h | h
        · exact absurd h (by decide)
        · rcases List.mem_append.mp h with h2 | h2
          · exact escapeString_no_nl s.data h2
          · exact absurd h2 (by decide)
      | arr es =>
        cases es with
        | nil =>
          rw [show dumps (Json.arr []) = ['[', ']'] from by simp [dumps]]
          decide
        | cons v2 vs =>
          have h1 := ih1 v2 (by simp only [jsize, jsizeList] at hsz; omega)
          have h2 := ih2 vs (by simp only [jsize, jsizeList] at hsz; omega)
          rw [show dumps (Json.arr (v2 :: vs)) =
            '[' :: (dumps v2 ++ arrTail vs) from by simp [dumps]]
          intro hm
          rcases List.mem_cons.mp hm with h | h
          · exact absurd h (by decide)
          · rcases List.mem_append.mp h with h3 | h3
            · exact h1 h3
            · exact h2 h3
      | obj fs =>
        cases fs with
        | nil =>
          rw [show dumps (Json.obj []) = [obrace, cbrace] from by simp [dumps]]
          decide
        | cons f fs2 =>
          obtain ⟨k, w⟩ := f
          have h1 := ih1 w (by simp only [jsize, jsizeFields] at hsz; omega)
          have h3 := ih3 fs2 (by simp only [jsize, jsizeFields] at hsz; omega)
          rw [show dumps (Json.obj ((k, w) :: fs2)) =
            obrace :: (dumpField (k, w) ++ fieldsTail fs2) from
            by simp [dumps]]
          rw [show dumpField (k, w) =
            '"' :: (escapeString k.data ++ '"' :: ':' :: ' ' :: dumps w) from
            by simp [dumpField]]
          intro hm
          rcases List.mem_cons.mp hm with h | h
          · exact absurd h (by decide)
          · rcases List.mem_append.mp h with h4 | h4
            · rcases List.mem_cons.mp h4 with h5 | h5
              · exact absurd h5 (by decide)
              · rcases List.mem_append.mp h5 with h6 | h6
                · exact escapeString_no_nl k.data h6
                · rcases List.mem_cons.mp h6 with h7 | h7
                  · exact absurd h7 (by decide)
                  · rcases List.mem_cons.mp h7 with h8 | h8
                    · exact absurd h8 (by decide)
                    · rcases List.mem_cons.mp h8 with h9 | h9
                      · exact absurd h9 (by decide)
                      · exact h1 h9
            · exact h3 h4
    · intro vs hsz
      cases vs with
      | nil =>
        rw [show arrTail [] = [']'] from by simp [arrTail]]
        decide
      | cons v2 vs2 =>
        have h1 := ih1 v2 (by simp only [jsizeList] at hsz; omega)
        have h2 := ih2 vs2 (by simp only [jsizeList] at hsz; omega)
        rw [show arrTail (v2 :: vs2) = ',' :: ' ' :: (dumps v2 ++ arrTail vs2)
          from by simp [arrTail]]
        intro hm
        rcases List.mem_cons.mp hm with h | h
        · exact absurd h (by decide)
        · rcases List.mem_cons.mp h with h3 | h3
          · exact absurd h3 (by decide)
          · rcases List.mem_append.mp h3 with h4 | h4
            · exact h1 h4
            · exact h2 h4
    · intro fs hsz
      cases fs with
      | nil =>
        rw [show fieldsTail [] = [cbrace] from by simp [fieldsTail]]
        decide
      | cons f2 fs2 =>
        obtain ⟨k2, w2⟩ := f2
        have h1 := ih1 w2 (by simp only [jsizeFields] at hsz; omega)
        have h3 := ih3 fs2 (by simp only [jsizeFields] at hsz; omega)
        rw [show fieldsTail ((k2, w2) :: fs2) =
          ',' :: ' ' :: (dumpField (k2, w2) ++ fieldsTail fs2) from
          by simp [fieldsTail]]
        rw [show dumpField (k2, w2) =
          '"' :: (escapeString k2.data ++ '"' :: ':' :: ' ' :: dumps w2) from
          by simp [dumpField]]
        intro hm
        rcases List.mem_cons.mp hm with h | h
        · exact absurd h (by decide)
        · rcases List.mem_cons.mp h with h4 | h4
          · exact absurd h4 (by decide)
          · rcases List.mem_append.mp h4 with h5 | h5
            · rcases List.mem_cons.mp h5 with h6 | h6
              · exact absurd h6 (by decide)
              · rcases List.mem_append.mp h6 with h7 | h7
                · exact escapeString_no_nl k2.data h7
                · rcases List.mem_cons.mp h7 with h8 | h8
                  · exact absurd h8 (by decide)
                  · rcases List.mem_cons.mp h8 with h9 | h9
                    · exact absurd h9 (by decide)
                    · rcases List.mem_cons.mp h9 with h10 | h10
                      · exact absurd h10 (by decide)
                      · exact h1 h10
            · exact h3 h5

theorem dumps_no_nl (v : Json) : Char.ofNat 10 ∉ dumps v :=
  (dumps_no_nl_bound (jsize v)).1 v le_rfl

/-- C8: writing any JSON value through the framed channel produces the
serialized value followed by a single newline and no embedded newline,
and feeding that line to the paired reader (strip, then decode) yields
the original value. -/
theorem framed_roundtrip : ∀ v : Json,
    decodeLine (writeFramed v) = some v ∧
    (writeFramed v).count (Char.ofNat 10) = 1 := by
  intro v
  refine ⟨decodeLine_framed v, ?_⟩
  rw [writeFramed, List.count_append,
    List.count_eq_zero.mpr (dumps_no_nl v)]
  simp

/-- C5: a line that does not decode produces no queue entry, and every
decodable line before and after it is still enqueued in receipt order;
one malformed line never stops or desynchronizes the loop. -/
theorem read_loop_malformed_line :
    (∀ pre bad post, decodeLine bad = none →
      readLoop (pre ++ bad :: post) = readLoop pre ++ readLoop post) ∧
    (∀ pre good post v, decodeLine good = some v →
      readLoop (pre ++ good :: post) = readLoop pre ++ v :: readLoop post) := by
  constructor
  · intro pre bad post h
    induction pre with
    | nil => simp [readLoop, h]
    | cons l pre ih =>
      rw [List.cons_append]
      cases hd : decodeLine l <;> simp [readLoop, hd, ih]
  · intro pre good post v h
    induction pre with
    | nil => simp [readLoop, h]
    | cons l pre ih =>
      rw [List.cons_append]
      cases hd : decodeLine l <;> simp [readLoop, hd, ih]

/-- Witness for C5: the malformed line not-json between the well-formed
lines 42 and true yields exactly the two decoded values, in order. -/
theorem read_loop_malformed_line_witness :
    readLoop [['4', '2'], ['n', 'o', 't', '-', 'j', 's', 'o', 'n'],
      ['t', 'r', 'u', 'e']] = [Json.num 42, Json.bool true] := by
  have h := read_loop_malformed_line.1 [['4', '2']]
    ['n', 'o', 't', '-', 'j', 's', 'o', 'n'] [['t', 'r', 'u', 'e']] rfl
  calc readLoop [['4', '2'], ['n', 'o', 't', '-', 'j', 's', 'o', 'n'],
      ['t', 'r', 'u', 'e']]
      = readLoop [['4', '2']] ++ readLoop [['t', 'r', 'u', 'e']] := by
        simpa using h
    _ = [Json.num 42, Json.bool true] := by rfl
